import Mathlib

set_option maxRecDepth 4000

/-!
Shallow embedding of the rusticdb-core durability layer: `Pager` (pager.rs),
`PageCache` (page_cache.rs) and `Wal` (wal.rs).  Files and page buffers are
byte lists (`List Nat`, each byte below 256 in real executions); the machine
integers of the source are `Nat` with explicit reductions modulo `2 ^ 32`
and `2 ^ 64` where the Rust code casts.
-/

/-- Little-endian encoding of `v` into `w` bytes, as `u32::to_le_bytes` and
`u64::to_le_bytes` produce (higher bytes of an oversized value are cut off,
mirroring the `as u32` / `as u64` casts). -/
def toLEBytes : Nat → Nat → List Nat
  | 0, _ => []
  | w + 1, v => v % 256 :: toLEBytes w (v / 256)

/-- Little-endian decoding, as `u32::from_le_bytes` / `u64::from_le_bytes`. -/
def fromLEBytes : List Nat → Nat
  | [] => 0
  | b :: bs => b + 256 * fromLEBytes bs

/-- One shift-and-conditional-xor round of the CRC-32 bit loop with the
reflected polynomial `0xEDB88320`, the checksum computed by the
`crc32fast::Hasher` that wal.rs uses. -/
def crc32Round (c : Nat) : Nat :=
  if c % 2 = 1 then (c / 2) ^^^ 0xEDB88320 else c / 2

def crc32Rounds : Nat → Nat → Nat
  | 0, c => c
  | k + 1, c => crc32Rounds k (crc32Round c)

/-- Absorb one input byte into the CRC-32 state (the byte is a `u8`, hence
the `% 256`). -/
def crc32Update (c b : Nat) : Nat := crc32Rounds 8 (c ^^^ b % 256)

/-- CRC-32 (IEEE) of a byte sequence: initial state `0xFFFFFFFF`, final xor
with `0xFFFFFFFF`. -/
def crc32 (data : List Nat) : Nat :=
  (data.foldl crc32Update 0xFFFFFFFF) ^^^ 0xFFFFFFFF

namespace Wal

def WAL_MAGIC : Nat := 0xC0DECAFE
def WAL_PAGE_SIZE : Nat := 4096

/-- A WAL frame as `append_internal` lays it out: kind byte at offset 0,
4-byte magic at 1, 8-byte page index at 5, 4-byte chunk index at 13, 4-byte
chunk count at 17, 4-byte payload length at 21, payload at 25, 4-byte CRC
after the payload, zero padding to `WAL_PAGE_SIZE`. -/
def frameBytes (ftype : Nat) (magic pid cid tot len payload crc pad : List Nat) : List Nat :=
  ftype :: (magic ++ pid ++ cid ++ tot ++ len ++ payload ++ crc ++ pad)

/-- The frame `append_internal` writes for chunk number `chunkId` of a record. -/
def encodeFrame (ftype pageId chunkId totalChunks : Nat) (chunk : List Nat) : List Nat :=
  frameBytes ftype (toLEBytes 4 WAL_MAGIC) (toLEBytes 8 pageId) (toLEBytes 4 chunkId)
    (toLEBytes 4 totalChunks) (toLEBytes 4 chunk.length) chunk
    (toLEBytes 4 (crc32 chunk)) (List.replicate (WAL_PAGE_SIZE - 29 - chunk.length) 0)

/-- Bytes written by `Wal::append_internal`: the payload is split into
`(WAL_PAGE_SIZE - 29)`-byte chunks and one frame is written per chunk; the
`max 1` gives an empty payload a single zero-length frame. -/
def appendInternal (ftype pageId : Nat) (data : List Nat) : List Nat :=
  let chunkSize := WAL_PAGE_SIZE - 29
  let totalChunks := (data.length + chunkSize - 1) / chunkSize
  ((List.range (max totalChunks 1)).map fun i =>
    encodeFrame ftype pageId i totalChunks ((data.drop (i * chunkSize)).take chunkSize)).flatten

/-- `Wal::append`: append a Data record for `pageId` (the log file is opened
in append mode, so the frames go at the end). -/
def append (wal : List Nat) (pageId : Nat) (data : List Nat) : List Nat :=
  wal ++ appendInternal 0 pageId data

/-- `Wal::append_checkpoint`: one Checkpoint frame whose payload is the
8-byte little-endian offset. -/
def appendCheckpoint (wal : List Nat) (lastOffset : Nat) : List Nat :=
  wal ++ appendInternal 1 0 (toLEBytes 8 lastOffset)

/-- `Wal::current_offset`: the end-of-file byte offset. -/
def currentOffset (wal : List Nat) : Nat := wal.length

/-- The reassembly state of `replay_from_offset` (`current_page_id`,
`expected_chunks`, `collected_chunks`) together with the sequence of callback
invocations made so far. -/
structure RState where
  curId : Option Nat
  expected : Nat
  collected : List (List Nat)
  acc : List (Nat × List Nat)
deriving DecidableEq

/-- The `FrameType::Data` arm of the replay loop: reset reassembly when the
page index changes, store the chunk when its index is below
`expected_chunks` (the source guards `collected_chunks[chunk_id] = data`
with exactly this bound check), and fire the callback once every chunk slot
is nonempty. -/
def processDataFrame (pageId chunkId totalChunks : Nat) (data : List Nat)
    (st : RState) : RState :=
  let st1 := if st.curId ≠ some pageId then
      { st with curId := some pageId, expected := totalChunks,
                collected := List.replicate totalChunks [] }
    else st
  let st2 := if chunkId < st1.expected then
      { st1 with collected := st1.collected.set chunkId data }
    else st1
  if st2.collected.all (fun c => !c.isEmpty) then
    { st2 with curId := none, acc := st2.acc ++ [(pageId, st2.collected.flatten)] }
  else st2

/-- The 4096-byte read buffer after `file.read(&mut page)` returned
`n = min WAL_PAGE_SIZE rem.length` bytes: the buffer is not cleared between
iterations, so the bytes past `n` are stale bytes of the previous buffer. -/
def readFrame (rem buf : List Nat) : List Nat :=
  rem.take (min WAL_PAGE_SIZE rem.length) ++ buf.drop (min WAL_PAGE_SIZE rem.length)

/-- `page[a..b]` on the read buffer. -/
def sliceBytes (f : List Nat) (a b : Nat) : List Nat := (f.drop a).take (b - a)

/-- One iteration of the body of `Wal::replay_from_offset` on the filled
read buffer `f`, with the source's checks in source order: `none` is a
`break` (unknown frame kind, magic mismatch, oversized payload length, CRC
mismatch), `some st'` continues the loop with the updated reassembly state
(the Checkpoint arm of the source `match` does nothing). -/
def parseFrame (f : List Nat) (st : RState) : Option RState :=
  let ftype := f.headD 0
  if 2 ≤ ftype then none
  else if fromLEBytes (sliceBytes f 1 5) ≠ WAL_MAGIC then none
  else
    let pageId := fromLEBytes (sliceBytes f 5 13)
    let chunkId := fromLEBytes (sliceBytes f 13 17)
    let totalChunks := fromLEBytes (sliceBytes f 17 21)
    let dataLen := fromLEBytes (sliceBytes f 21 25)
    if WAL_PAGE_SIZE < 25 + dataLen + 4 then none
    else
      let data := sliceBytes f 25 (25 + dataLen)
      let expectedCrc := fromLEBytes (sliceBytes f (25 + dataLen) (29 + dataLen))
      if crc32 data ≠ expectedCrc then none
      else if ftype = 0 then some (processDataFrame pageId chunkId totalChunks data st)
      else some st

/-- The read loop of `Wal::replay_from_offset` over the remaining file bytes
`rem`, returning the list of callback invocations; a read shorter than the
29-byte minimum header (including a zero-byte read) and every `break` of
`parseFrame` return the invocations accumulated so far (the source then
returns `Ok(())`). -/
def replayLoop (rem buf : List Nat) (st : RState) : List (Nat × List Nat) :=
  if _h : min WAL_PAGE_SIZE rem.length < 29 then st.acc
  else
    match parseFrame (readFrame rem buf) st with
    | none => st.acc
    | some st' =>
      replayLoop (rem.drop (min WAL_PAGE_SIZE rem.length)) (readFrame rem buf) st'
termination_by rem.length
decreasing_by
  simp only [List.length_drop]; omega

/-- `Wal::replay_from_offset`: seek to `offset` and run the read loop with a
zeroed buffer and empty reassembly state; the result is the ordered list of
`(page_index, data)` callback invocations. -/
def replayFromOffset (wal : List Nat) (offset : Nat) : List (Nat × List Nat) :=
  replayLoop (wal.drop offset) (List.replicate WAL_PAGE_SIZE 0) ⟨none, 0, [], []⟩

end Wal

def PAGE_SIZE : Nat := 4096

/-- `Pager` (pager.rs): durable fixed-size block storage over one file,
modelled as the file's byte sequence.  (The source wraps the handle in a
`Mutex` that only serializes calls; with call-at-a-time semantics the lock
has no observable effect on the state.) -/
structure Pager where
  file : List Nat
deriving DecidableEq

/-- `Pager::read_page`: seek to `page_id * PAGE_SIZE`, read up to `PAGE_SIZE`
bytes into a zero-initialized buffer and return the whole buffer, so short
reads come back zero-padded. -/
def Pager.read_page (p : Pager) (page_id : Nat) : List Nat :=
  let r := (p.file.drop (page_id * PAGE_SIZE)).take PAGE_SIZE
  r ++ List.replicate (PAGE_SIZE - r.length) 0

/-- `Pager::write_page`: seek to `page_id * PAGE_SIZE` and write exactly
`PAGE_SIZE` bytes; seeking past the end of the file leaves a zero-filled
gap. -/
def Pager.write_page (p : Pager) (page_id : Nat) (data : List Nat) : Pager :=
  let off := page_id * PAGE_SIZE
  let f := p.file ++ List.replicate (off - p.file.length) 0
  ⟨f.take off ++ data ++ f.drop (off + PAGE_SIZE)⟩

/-- First-match lookup in an association list, the observable behaviour of
the `HashMap` gets in page_cache.rs. -/
def lookupA {α : Type} : List (Nat × α) → Nat → Option α
  | [], _ => none
  | (k, v) :: rest, key => if k = key then some v else lookupA rest key

/-- `HashMap::insert`: replace the entry if the key is present, otherwise
add it. -/
def insertA {α : Type} : List (Nat × α) → Nat → α → List (Nat × α)
  | [], key, v => [(key, v)]
  | (k, w) :: rest, key, v =>
    if k = key then (key, v) :: rest else (k, w) :: insertA rest key v

/-- `HashMap::remove`: drop the entry with the given key, if present. -/
def removeA {α : Type} : List (Nat × α) → Nat → List (Nat × α)
  | [], _ => []
  | (k, w) :: rest, key => if k = key then rest else (k, w) :: removeA rest key

/-- `PageCache` (page_cache.rs): the wrapped pager, the `cache` map from page
index to page buffer, the `dirty_flag` map, the LRU queue (front =
least-recently-used) and the configured capacity. -/
structure PageCache where
  pager : Pager
  cache : List (Nat × List Nat)
  dirty_flag : List (Nat × Bool)
  lru : List Nat
  capacity : Nat
deriving DecidableEq

/-- `dirty_flag.get(&victim).copied().unwrap_or(false)`. -/
def PageCache.lookupDirty (s : PageCache) (page_id : Nat) : Bool :=
  (lookupA s.dirty_flag page_id).getD false

/-- The `while self.cache.len() > self.capacity` loop of
`PageCache::evict_if_necessary`, written with explicit fuel: `none` means
the loop has not terminated within `fuel` iterations (the source loop has no
other way to stop once every entry is dirty, because requeueing a dirty
victim never shrinks the cache). -/
def evictLoop : Nat → PageCache → Option PageCache
  | fuel, s =>
    if s.capacity < s.cache.length then
      match s.lru with
      | [] => some s
      | v :: rest =>
        match fuel with
        | 0 => none
        | fuel' + 1 =>
          if s.lookupDirty v then
            evictLoop fuel' { s with lru := rest ++ [v] }
          else
            evictLoop fuel' { s with lru := rest, cache := removeA s.cache v,
                                     dirty_flag := removeA s.dirty_flag v }
    else some s

/-- `PageCache::get_page`: on a hit, promote the page to most-recently-used
and return its buffer; on a miss, read through the pager, insert a new
entry, promote it, then run eviction.  `none` propagates a non-terminating
eviction loop. -/
def PageCache.get_page (fuel : Nat) (s : PageCache) (page_id : Nat) :
    Option (PageCache × List Nat) :=
  match lookupA s.cache page_id with
  | some page => some ({ s with lru := s.lru.erase page_id ++ [page_id] }, page)
  | none =>
    let page_data := s.pager.read_page page_id
    let s1 := { s with cache := insertA s.cache page_id page_data,
                       lru := s.lru ++ [page_id] }
    match evictLoop fuel s1 with
    | none => none
    | some s2 => some (s2, page_data)

/-- `PageCache::mark_dirty`: unconditionally `dirty_flag.insert(page_id, true)`. -/
def PageCache.mark_dirty (s : PageCache) (page_id : Nat) : PageCache :=
  { s with dirty_flag := insertA s.dirty_flag page_id true }

/-- The `for page_id in self.lru.iter()` loop of `PageCache::flush`; `err`
tells which page writes the underlying file rejects (all-`false` is the
error-free execution).  The boolean result is `true` for `Ok(())`; on a
write error the source's `?` returns immediately with the bookkeeping as
mutated so far. -/
def flushLoop (err : Nat → Bool) : List Nat → PageCache → PageCache × Bool
  | [], s => ({ s with dirty_flag := [] }, true)
  | i :: rest, s =>
    match lookupA s.cache i with
    | none => flushLoop err rest s
    | some page =>
      match lookupA s.dirty_flag i with
      | none => flushLoop err rest s
      | some _ =>
        if err i then (s, false)
        else flushLoop err rest
          { s with pager := s.pager.write_page i page,
                   dirty_flag := removeA s.dirty_flag i }

/-- `PageCache::flush`: write every dirty cached page in LRU order, then
clear all dirty flags. -/
def PageCache.flush (err : Nat → Bool) (s : PageCache) : PageCache × Bool :=
  flushLoop err s.lru s

/-! ### Byte-level encoding lemmas -/

@[simp] theorem toLEBytes_length (w v : Nat) : (toLEBytes w v).length = w := by
  induction w generalizing v with
  | zero => rfl
  | succ w ih => simp [toLEBytes, ih]

theorem toLEBytes_lt (w v : Nat) : ∀ b ∈ toLEBytes w v, b < 256 := by
  induction w generalizing v with
  | zero => simp [toLEBytes]
  | succ w ih =>
    intro b hb
    simp only [toLEBytes, List.mem_cons] at hb
    rcases hb with h | h
    · omega
    · exact ih _ _ h

theorem fromLEBytes_toLEBytes (w v : Nat) :
    fromLEBytes (toLEBytes w v) = v % 256 ^ w := by
  induction w generalizing v with
  | zero => simp [toLEBytes, fromLEBytes, Nat.mod_one]
  | succ w ih =>
    simp only [toLEBytes, fromLEBytes, ih]
    rw [pow_succ, mul_comm (256 ^ w) 256, Nat.mod_mul]

theorem fromLEBytes_toLEBytes_of_lt {w v : Nat} (h : v < 256 ^ w) :
    fromLEBytes (toLEBytes w v) = v := by
  rw [fromLEBytes_toLEBytes, Nat.mod_eq_of_lt h]

/-- Changing one byte of a byte string changes its little-endian value. -/
theorem fromLEBytes_set_ne (bs : List Nat) (j v : Nat)
    (hbs : ∀ b ∈ bs, b < 256) (hv : v < 256) (hj : j < bs.length)
    (hne : v ≠ bs.getD j 0) :
    fromLEBytes (bs.set j v) ≠ fromLEBytes bs := by
  induction bs generalizing j with
  | nil => simp at hj
  | cons b rest ih =>
    cases j with
    | zero =>
      simp only [List.set, fromLEBytes, List.getD_cons_zero] at hne ⊢
      intro h
      have hb : b < 256 := hbs b (by simp)
      have h1 : (v + 256 * fromLEBytes rest) % 256 = (b + 256 * fromLEBytes rest) % 256 := by
        rw [h]
      simp [Nat.add_mul_mod_self_left, Nat.mod_eq_of_lt hv, Nat.mod_eq_of_lt hb] at h1
      exact hne h1
    | succ j =>
      simp only [List.set, fromLEBytes, List.getD_cons_succ] at hne ⊢
      intro h
      have h2 : fromLEBytes (rest.set j v) = fromLEBytes rest := by omega
      exact ih j (fun x hx => hbs x (by simp [hx])) (by simpa using hj) hne h2

/-! ### CRC bounds -/

theorem crc32Round_lt (c : Nat) (h : c < 2 ^ 32) : crc32Round c < 2 ^ 32 := by
  unfold crc32Round
  have hdiv : c / 2 < 2 ^ 32 := lt_of_le_of_lt (Nat.div_le_self c 2) h
  split
  · exact Nat.xor_lt_two_pow hdiv (by norm_num)
  · exact hdiv

theorem crc32Rounds_lt (k c : Nat) (h : c < 2 ^ 32) : crc32Rounds k c < 2 ^ 32 := by
  induction k generalizing c with
  | zero => exact h
  | succ k ih => exact ih _ (crc32Round_lt c h)

theorem crc32Update_lt (c b : Nat) (h : c < 2 ^ 32) : crc32Update c b < 2 ^ 32 :=
  crc32Rounds_lt 8 _ (Nat.xor_lt_two_pow h (lt_of_lt_of_le (Nat.mod_lt b (by norm_num))
    (by norm_num)))

theorem crc32_foldl_lt (data : List Nat) (c : Nat) (h : c < 2 ^ 32) :
    data.foldl crc32Update c < 2 ^ 32 := by
  induction data generalizing c with
  | nil => exact h
  | cons b rest ih => exact ih _ (crc32Update_lt c b h)

theorem crc32_lt (data : List Nat) : crc32 data < 2 ^ 32 := by
  unfold crc32
  exact Nat.xor_lt_two_pow (crc32_foldl_lt data _ (by norm_num)) (by norm_num)

/-! ### Reading the fields back out of a frame -/

namespace Wal

theorem sliceBytes_of_append (pre mid post : List Nat) {F : List Nat} {a b : Nat}
    (hF : F = pre ++ (mid ++ post)) (ha : pre.length = a) (hb : mid.length = b - a) :
    sliceBytes F a b = mid := by
  subst hF
  unfold sliceBytes
  rw [List.drop_left' ha, List.take_left' hb]

variable {ft : Nat} {m p c t l d r pad : List Nat}

theorem frameBytes_headD : (frameBytes ft m p c t l d r pad).headD 0 = ft := rfl

theorem frameBytes_length (hm : m.length = 4) (hp : p.length = 8) (hc : c.length = 4)
    (ht : t.length = 4) (hl : l.length = 4) (hr : r.length = 4) :
    (frameBytes ft m p c t l d r pad).length = 29 + d.length + pad.length := by
  simp [frameBytes, hm, hp, hc, ht, hl, hr]
  omega

theorem frameBytes_magic (hm : m.length = 4) :
    sliceBytes (frameBytes ft m p c t l d r pad) 1 5 = m :=
  sliceBytes_of_append [ft] m (p ++ (c ++ (t ++ (l ++ (d ++ (r ++ pad))))))
    (by simp [frameBytes]) (by simp) (by simp [hm])

theorem frameBytes_pid (hm : m.length = 4) (hp : p.length = 8) :
    sliceBytes (frameBytes ft m p c t l d r pad) 5 13 = p :=
  sliceBytes_of_append (ft :: m) p (c ++ (t ++ (l ++ (d ++ (r ++ pad)))))
    (by simp [frameBytes]) (by simp [hm]) (by simp [hp])

theorem frameBytes_cid (hm : m.length = 4) (hp : p.length = 8) (hc : c.length = 4) :
    sliceBytes (frameBytes ft m p c t l d r pad) 13 17 = c :=
  sliceBytes_of_append (ft :: (m ++ p)) c (t ++ (l ++ (d ++ (r ++ pad))))
    (by simp [frameBytes]) (by simp [hm, hp]) (by simp [hc])

theorem frameBytes_tot (hm : m.length = 4) (hp : p.length = 8) (hc : c.length = 4)
    (ht : t.length = 4) :
    sliceBytes (frameBytes ft m p c t l d r pad) 17 21 = t :=
  sliceBytes_of_append (ft :: (m ++ p ++ c)) t (l ++ (d ++ (r ++ pad)))
    (by simp [frameBytes]) (by simp [hm, hp, hc]) (by simp [ht])

theorem frameBytes_len (hm : m.length = 4) (hp : p.length = 8) (hc : c.length = 4)
    (ht : t.length = 4) (hl : l.length = 4) :
    sliceBytes (frameBytes ft m p c t l d r pad) 21 25 = l :=
  sliceBytes_of_append (ft :: (m ++ p ++ c ++ t)) l (d ++ (r ++ pad))
    (by simp [frameBytes]) (by simp [hm, hp, hc, ht]) (by simp [hl])

theorem frameBytes_data (hm : m.length = 4) (hp : p.length = 8) (hc : c.length = 4)
    (ht : t.length = 4) (hl : l.length = 4) :
    sliceBytes (frameBytes ft m p c t l d r pad) 25 (25 + d.length) = d :=
  sliceBytes_of_append (ft :: (m ++ p ++ c ++ t ++ l)) d (r ++ pad)
    (by simp [frameBytes]) (by simp [hm, hp, hc, ht, hl]) (by omega)

theorem frameBytes_crc (hm : m.length = 4) (hp : p.length = 8) (hc : c.length = 4)
    (ht : t.length = 4) (hl : l.length = 4) (hr : r.length = 4) :
    sliceBytes (frameBytes ft m p c t l d r pad) (25 + d.length) (29 + d.length) = r :=
  sliceBytes_of_append (ft :: (m ++ p ++ c ++ t ++ l ++ d)) r pad
    (by simp [frameBytes]) (by simp [hm, hp, hc, ht, hl]; omega) (by simp [hr]; omega)

/-! ### Stepping the replay loop over one frame -/

/-- A read shorter than the minimum header size (including a zero-byte read
at end of file) ends replay with what was accumulated. -/
theorem replayLoop_short (rem buf : List Nat) (st : RState)
    (h : min WAL_PAGE_SIZE rem.length < 29) : replayLoop rem buf st = st.acc := by
  rw [replayLoop.eq_def, dif_pos h]

/-- A frame on which the body `break`s ends replay with what was accumulated. -/
theorem replayLoop_break (rem buf : List Nat) (st : RState)
    (h : ¬ min WAL_PAGE_SIZE rem.length < 29)
    (hp : parseFrame (readFrame rem buf) st = none) : replayLoop rem buf st = st.acc := by
  rw [replayLoop.eq_def, dif_neg h, hp]

/-- A frame the body accepts: the loop continues past it with the updated
state, the frame's bytes staying behind as the stale read buffer. -/
theorem replayLoop_cont (rem buf : List Nat) (st st' : RState)
    (h : ¬ min WAL_PAGE_SIZE rem.length < 29)
    (hp : parseFrame (readFrame rem buf) st = some st') :
    replayLoop rem buf st =
      replayLoop (rem.drop (min WAL_PAGE_SIZE rem.length)) (readFrame rem buf) st' := by
  rw [replayLoop.eq_def, dif_neg h, hp]

/-- Parsing a well-formed frame succeeds: the loop reads the header fields
back out, passes every integrity check, and runs the Data arm (or skips the
frame, for a Checkpoint). -/
theorem parseFrame_frameBytes (st : RState)
    (hm : m.length = 4) (hp : p.length = 8) (hc : c.length = 4) (ht : t.length = 4)
    (hl : l.length = 4) (hr : r.length = 4)
    (hd : d.length ≤ WAL_PAGE_SIZE - 29)
    (hld : fromLEBytes l = d.length)
    (hft : ft < 2)
    (hmagic : fromLEBytes m = WAL_MAGIC)
    (hcrc : crc32 d = fromLEBytes r) :
    parseFrame (frameBytes ft m p c t l d r pad) st =
      some (if ft = 0 then
        processDataFrame (fromLEBytes p) (fromLEBytes c) (fromLEBytes t) d st
      else st) := by
  unfold parseFrame
  simp only [frameBytes_headD, frameBytes_magic hm, frameBytes_pid hm hp,
    frameBytes_cid hm hp hc, frameBytes_tot hm hp hc ht, frameBytes_len hm hp hc ht hl,
    hld]
  rw [if_neg (by omega)]
  rw [if_neg (by simp [hmagic])]
  rw [if_neg (by unfold WAL_PAGE_SIZE at hd ⊢; omega)]
  rw [frameBytes_data hm hp hc ht hl, frameBytes_crc hm hp hc ht hl hr]
  rw [if_neg (by simp [hcrc])]
  by_cases hft0 : ft = 0
  · rw [if_pos hft0, if_pos hft0]
  · rw [if_neg hft0, if_neg hft0]

/-- Consuming one well-formed frame at the head of the remaining input. -/
theorem replayLoop_frame (rest buf : List Nat) (st : RState)
    (hm : m.length = 4) (hp : p.length = 8) (hc : c.length = 4) (ht : t.length = 4)
    (hl : l.length = 4) (hr : r.length = 4)
    (hlen : 29 + d.length + pad.length = WAL_PAGE_SIZE)
    (hld : fromLEBytes l = d.length)
    (hbuf : buf.length = WAL_PAGE_SIZE)
    (hft : ft < 2)
    (hmagic : fromLEBytes m = WAL_MAGIC)
    (hcrc : crc32 d = fromLEBytes r) :
    replayLoop (frameBytes ft m p c t l d r pad ++ rest) buf st =
      replayLoop rest (frameBytes ft m p c t l d r pad)
        (if ft = 0 then
          processDataFrame (fromLEBytes p) (fromLEBytes c) (fromLEBytes t) d st
        else st) := by
  have hF : (frameBytes ft m p c t l d r pad).length = WAL_PAGE_SIZE := by
    rw [frameBytes_length hm hp hc ht hl hr, hlen]
  have hmin : min WAL_PAGE_SIZE (frameBytes ft m p c t l d r pad ++ rest).length
      = WAL_PAGE_SIZE := by
    simp [List.length_append, hF]
  have hread : readFrame (frameBytes ft m p c t l d r pad ++ rest) buf
      = frameBytes ft m p c t l d r pad := by
    unfold readFrame
    rw [hmin, List.take_left' hF, List.drop_eq_nil_of_le (le_of_eq hbuf),
      List.append_nil]
  rw [replayLoop_cont _ _ st
      (if ft = 0 then
        processDataFrame (fromLEBytes p) (fromLEBytes c) (fromLEBytes t) d st
      else st)
      (by rw [hmin]; unfold WAL_PAGE_SIZE; omega)
      (by rw [hread]
          exact parseFrame_frameBytes st hm hp hc ht hl hr (by omega) hld hft hmagic hcrc)]
  rw [hread, hmin, List.drop_left' hF]

theorem pow256_4 : (256 : Nat) ^ 4 = 2 ^ 32 := by norm_num

theorem pow256_8 : (256 : Nat) ^ 8 = 2 ^ 64 := by norm_num

theorem encodeFrame_length {ftype pid cid tot : Nat} {chunk : List Nat}
    (h : chunk.length ≤ 4067) :
    (encodeFrame ftype pid cid tot chunk).length = WAL_PAGE_SIZE := by
  unfold encodeFrame
  rw [frameBytes_length (toLEBytes_length 4 _) (toLEBytes_length 8 _) (toLEBytes_length 4 _)
    (toLEBytes_length 4 _) (toLEBytes_length 4 _) (toLEBytes_length 4 _)]
  simp only [List.length_replicate]
  unfold WAL_PAGE_SIZE
  omega

/-- Stepping the loop over one frame exactly as `append_internal` encodes
it: the parsed page index, chunk index and chunk count come back reduced by
the `u64` / `u32` casts of the source. -/
theorem replayLoop_encodeFrame (ftype pid cid tot : Nat) (chunk rest buf : List Nat)
    (st : RState) (hchunk : chunk.length ≤ 4067) (hbuf : buf.length = WAL_PAGE_SIZE)
    (hft : ftype < 2) :
    replayLoop (encodeFrame ftype pid cid tot chunk ++ rest) buf st =
      replayLoop rest (encodeFrame ftype pid cid tot chunk)
        (if ftype = 0 then
          processDataFrame (pid % 2 ^ 64) (cid % 2 ^ 32) (tot % 2 ^ 32) chunk st
        else st) := by
  unfold encodeFrame
  rw [replayLoop_frame rest buf st (toLEBytes_length 4 _) (toLEBytes_length 8 _)
    (toLEBytes_length 4 _) (toLEBytes_length 4 _) (toLEBytes_length 4 _)
    (toLEBytes_length 4 _)
    (by simp only [List.length_replicate]; unfold WAL_PAGE_SIZE; omega)
    (fromLEBytes_toLEBytes_of_lt (by rw [pow256_4]; omega))
    hbuf hft
    (fromLEBytes_toLEBytes_of_lt (by unfold WAL_MAGIC; norm_num))
    (fromLEBytes_toLEBytes_of_lt (by rw [pow256_4]; exact crc32_lt chunk)).symm]
  rw [fromLEBytes_toLEBytes, fromLEBytes_toLEBytes, fromLEBytes_toLEBytes,
    pow256_4, pow256_8]

/-! ### Unfolding `append_internal` for zero to three chunks -/

theorem appendInternal_zero (ftype pid : Nat) (data : List Nat) (h : data.length = 0) :
    appendInternal ftype pid data = encodeFrame ftype pid 0 0 data ++ [] := by
  unfold appendInternal
  rw [List.eq_nil_of_length_eq_zero h]
  rfl

theorem appendInternal_one (ftype pid : Nat) (data : List Nat)
    (h1 : 1 ≤ data.length) (h2 : data.length ≤ 4067) :
    appendInternal ftype pid data = encodeFrame ftype pid 0 1 data ++ [] := by
  unfold appendInternal WAL_PAGE_SIZE
  simp only []
  rw [show (4096 - 29 : Nat) = 4067 from rfl]
  rw [show (data.length + 4067 - 1) / 4067 = 1 by omega]
  rw [show max 1 1 = 1 from rfl, show List.range 1 = [0] from rfl]
  simp only [List.map_cons, List.map_nil, List.flatten]
  rw [Nat.zero_mul, List.drop_zero, List.take_of_length_le h2, List.append_nil]

theorem appendInternal_two (ftype pid : Nat) (data : List Nat)
    (h1 : 4068 ≤ data.length) (h2 : data.length ≤ 8134) :
    appendInternal ftype pid data =
      encodeFrame ftype pid 0 2 (data.take 4067) ++
        (encodeFrame ftype pid 1 2 ((data.drop 4067).take 4067) ++ []) := by
  unfold appendInternal WAL_PAGE_SIZE
  simp only []
  rw [show (4096 - 29 : Nat) = 4067 from rfl]
  rw [show (data.length + 4067 - 1) / 4067 = 2 by omega]
  rw [show max 2 1 = 2 from rfl, show List.range 2 = [0, 1] from rfl]
  simp only [List.map_cons, List.map_nil, List.flatten, List.append_nil]
  rw [Nat.zero_mul, List.drop_zero, Nat.one_mul]

theorem appendInternal_three (ftype pid : Nat) (data : List Nat)
    (h1 : 8135 ≤ data.length) (h2 : data.length ≤ 12201) :
    appendInternal ftype pid data =
      encodeFrame ftype pid 0 3 (data.take 4067) ++
        (encodeFrame ftype pid 1 3 ((data.drop 4067).take 4067) ++
          (encodeFrame ftype pid 2 3 ((data.drop 8134).take 4067) ++ [])) := by
  unfold appendInternal WAL_PAGE_SIZE
  simp only []
  rw [show (4096 - 29 : Nat) = 4067 from rfl]
  rw [show (data.length + 4067 - 1) / 4067 = 3 by omega]
  rw [show max 3 1 = 3 from rfl, show List.range 3 = [0, 1, 2] from rfl]
  simp only [List.map_cons, List.map_nil, List.flatten, List.append_nil]
  rw [Nat.zero_mul, List.drop_zero, Nat.one_mul, show 2 * 4067 = 8134 from rfl]

/-! ### Replaying one whole appended record -/

theorem isEmpty_false_of_length_pos {α : Type} {l : List α} (h : 0 < l.length) :
    l.isEmpty = false := by
  cases l with
  | nil => simp at h
  | cons a t => rfl

/-- Replay of an empty-payload record: `append_internal` wrote a single
frame with chunk count 0, and the all-slots-nonempty check is vacuously
true, so the callback fires with the empty payload. -/
theorem replayLoop_record_empty (pid : Nat) (rest buf : List Nat) (st : RState)
    (hbuf : buf.length = WAL_PAGE_SIZE) (hcur : st.curId ≠ some (pid % 2 ^ 64)) :
    replayLoop (appendInternal 0 pid [] ++ rest) buf st =
      replayLoop rest (encodeFrame 0 pid 0 0 [])
        ⟨none, 0, [], st.acc ++ [(pid % 2 ^ 64, [])]⟩ := by
  rw [appendInternal_zero 0 pid [] rfl]
  simp only [List.append_nil]
  rw [replayLoop_encodeFrame 0 pid 0 0 [] rest buf st (by simp) hbuf (by norm_num)]
  rw [if_pos rfl]
  congr 1
  norm_num at hcur
  unfold processDataFrame
  simp [hcur]

/-- Replay of a record of 1 to 4067 payload bytes: one frame with chunk
count 1, whose arrival completes the record at once. -/
theorem replayLoop_record_one (pid : Nat) (data rest buf : List Nat) (st : RState)
    (h1 : 1 ≤ data.length) (h2 : data.length ≤ 4067)
    (hbuf : buf.length = WAL_PAGE_SIZE) (hcur : st.curId ≠ some (pid % 2 ^ 64)) :
    replayLoop (appendInternal 0 pid data ++ rest) buf st =
      replayLoop rest (encodeFrame 0 pid 0 1 data)
        ⟨none, 1, [data], st.acc ++ [(pid % 2 ^ 64, data)]⟩ := by
  have hne : data.isEmpty = false := by
    cases data with
    | nil => simp at h1
    | cons a l => rfl
  rw [appendInternal_one 0 pid data h1 h2]
  simp only [List.append_nil]
  rw [replayLoop_encodeFrame 0 pid 0 1 data rest buf st h2 hbuf (by norm_num)]
  rw [if_pos rfl]
  congr 1
  norm_num at hcur
  unfold processDataFrame
  simp [hcur, hne]

/-- Replay of a record of 4068 to 8134 payload bytes: two frames with chunk
count 2; the first leaves slot 1 empty, the second completes the record and
the concatenated chunks are the original payload. -/
theorem replayLoop_record_two (pid : Nat) (data rest buf : List Nat) (st : RState)
    (h1 : 4068 ≤ data.length) (h2 : data.length ≤ 8134)
    (hbuf : buf.length = WAL_PAGE_SIZE) (hcur : st.curId ≠ some (pid % 2 ^ 64)) :
    replayLoop (appendInternal 0 pid data ++ rest) buf st =
      replayLoop rest (encodeFrame 0 pid 1 2 ((data.drop 4067).take 4067))
        ⟨none, 2, [data.take 4067, (data.drop 4067).take 4067],
          st.acc ++ [(pid % 2 ^ 64, data)]⟩ := by
  have hc0 : (data.take 4067).length = 4067 := by
    simp [List.length_take]; omega
  have hc1 : ((data.drop 4067).take 4067).length = data.length - 4067 := by
    simp [List.length_take, List.length_drop]; omega
  have hne0 : (data.take 4067).isEmpty = false :=
    isEmpty_false_of_length_pos (by rw [hc0]; norm_num)
  have hne1 : ((data.drop 4067).take 4067).isEmpty = false :=
    isEmpty_false_of_length_pos (by rw [hc1]; omega)
  have hjoin : data.take 4067 ++ (data.drop 4067).take 4067 = data := by
    rw [← List.take_add, List.take_of_length_le (by omega)]
  rw [appendInternal_two 0 pid data h1 h2]
  simp only [List.append_nil, List.append_assoc]
  rw [replayLoop_encodeFrame 0 pid 0 2 (data.take 4067) _ buf st (by omega) hbuf
    (by norm_num)]
  rw [if_pos rfl]
  rw [replayLoop_encodeFrame 0 pid 1 2 ((data.drop 4067).take 4067) rest _ _
    (by omega) (encodeFrame_length (by omega)) (by norm_num)]
  rw [if_pos rfl]
  congr 1
  norm_num at hcur
  unfold processDataFrame
  simp [hcur, hne0, hne1, hjoin]

set_option maxHeartbeats 1200000 in
/-- Replay of a record of 8135 to 12201 payload bytes: three frames with
chunk count 3; the record completes on the third and the concatenated
chunks are the original payload. -/
theorem replayLoop_record_three (pid : Nat) (data rest buf : List Nat) (st : RState)
    (h1 : 8135 ≤ data.length) (h2 : data.length ≤ 12201)
    (hbuf : buf.length = WAL_PAGE_SIZE) (hcur : st.curId ≠ some (pid % 2 ^ 64)) :
    replayLoop (appendInternal 0 pid data ++ rest) buf st =
      replayLoop rest (encodeFrame 0 pid 2 3 ((data.drop 8134).take 4067))
        ⟨none, 3, [data.take 4067, (data.drop 4067).take 4067, (data.drop 8134).take 4067],
          st.acc ++ [(pid % 2 ^ 64, data)]⟩ := by
  have hc0 : (data.take 4067).length = 4067 := by
    simp [List.length_take]; omega
  have hc1 : ((data.drop 4067).take 4067).length = 4067 := by
    simp [List.length_take, List.length_drop]; omega
  have hc2 : ((data.drop 8134).take 4067).length = data.length - 8134 := by
    simp [List.length_take, List.length_drop]; omega
  have hne0 : (data.take 4067).isEmpty = false :=
    isEmpty_false_of_length_pos (by rw [hc0]; norm_num)
  have hne1 : ((data.drop 4067).take 4067).isEmpty = false :=
    isEmpty_false_of_length_pos (by rw [hc1]; norm_num)
  have hne2 : ((data.drop 8134).take 4067).isEmpty = false :=
    isEmpty_false_of_length_pos (by rw [hc2]; omega)
  have hdd : (data.drop 4067).drop 4067 = data.drop 8134 := by
    rw [List.drop_drop]
  have hjoin : data.take 4067 ++ ((data.drop 4067).take 4067 ++ (data.drop 8134).take 4067)
      = data := by
    rw [← hdd, ← List.take_add, ← List.take_add, List.take_of_length_le (by omega)]
  rw [appendInternal_three 0 pid data h1 h2]
  simp only [List.append_nil, List.append_assoc]
  rw [replayLoop_encodeFrame 0 pid 0 3 (data.take 4067) _ buf st (by omega) hbuf
    (by norm_num)]
  rw [if_pos rfl]
  rw [replayLoop_encodeFrame 0 pid 1 3 ((data.drop 4067).take 4067) _ _ _
    (by omega) (encodeFrame_length (by omega)) (by norm_num)]
  rw [if_pos rfl]
  rw [replayLoop_encodeFrame 0 pid 2 3 ((data.drop 8134).take 4067) rest _ _
    (by omega) (encodeFrame_length (by omega)) (by norm_num)]
  rw [if_pos rfl]
  congr 1
  norm_num at hcur
  unfold processDataFrame
  simp [hcur, hne0, hne1, hne2, hjoin]

end Wal

/-- C1: WAL round-trip — for every page index `id` (a `usize`, hence below
`2 ^ 64`) and every payload whose length is one of 0, 1, `chunk_size - 1`,
`chunk_size`, `chunk_size + 1` or `3 * chunk_size` (with
`chunk_size = 4096 - 29 = 4067`), appending the record to a fresh WAL and
replaying from offset 0 invokes the callback exactly once, with exactly
`(id, data)`. -/
theorem wal_append_replay_roundtrip (id : Nat) (data : List Nat) (hid : id < 2 ^ 64)
    (hlen : data.length ∈ ([0, 1, 4066, 4067, 4068, 3 * 4067] : List Nat)) :
    Wal.replayFromOffset (Wal.append [] id data) 0 = [(id, data)] := by
  have hmod : id % 2 ^ 64 = id := Nat.mod_eq_of_lt hid
  norm_num at hmod
  simp only [List.mem_cons, List.not_mem_nil, or_false] at hlen
  unfold Wal.replayFromOffset Wal.append
  rw [List.nil_append, List.drop_zero,
    show Wal.appendInternal 0 id data = Wal.appendInternal 0 id data ++ [] from
      (List.append_nil _).symm]
  have hbuf : (List.replicate Wal.WAL_PAGE_SIZE 0).length = Wal.WAL_PAGE_SIZE := by
    simp
  have hcur : (⟨none, 0, [], []⟩ : Wal.RState).curId ≠ some (id % 2 ^ 64) := by
    simp
  have hshort : ∀ (b : List Nat) (st : Wal.RState), Wal.replayLoop [] b st = st.acc :=
    fun b st => Wal.replayLoop_short [] b st (by simp [Wal.WAL_PAGE_SIZE])
  rcases hlen with h | h | h | h | h | h
  · have hd : data = [] := List.length_eq_zero.mp h
    subst hd
    rw [Wal.replayLoop_record_empty id [] _ _ hbuf hcur, hshort]
    simp [hmod]
  · rw [Wal.replayLoop_record_one id data [] _ _ (by omega) (by omega) hbuf hcur, hshort]
    simp [hmod]
  · rw [Wal.replayLoop_record_one id data [] _ _ (by omega) (by omega) hbuf hcur, hshort]
    simp [hmod]
  · rw [Wal.replayLoop_record_one id data [] _ _ (by omega) (by omega) hbuf hcur, hshort]
    simp [hmod]
  · rw [Wal.replayLoop_record_two id data [] _ _ (by omega) (by omega) hbuf hcur, hshort]
    simp [hmod]
  · rw [Wal.replayLoop_record_three id data [] _ _ (by omega) (by omega) hbuf hcur, hshort]
    simp [hmod]

/-- Witness for C1 at page index 7 and the one-byte payload `[42]`. -/
theorem wal_append_replay_roundtrip_witness :
    Wal.replayFromOffset (Wal.append [] 7 [42]) 0 = [(7, [42])] :=
  wal_append_replay_roundtrip 7 [42] (by norm_num) (by simp)

/-- The ASCII bytes of `"hello world"`. -/
def helloWorldBytes : List Nat :=
  [104, 101, 108, 108, 111, 32, 119, 111, 114, 108, 100]

/-- C9: checkpoint frames are read and skipped, never surfaced — appending
`"hello world"` for page 1, a checkpoint at the offset recorded by
`current_offset`, and 8192 bytes of `0x2A` for page 2, then replaying from
offset 0, yields exactly the two data callbacks in order. -/
theorem wal_checkpoint_skipped_scenario :
    Wal.replayFromOffset
      (Wal.append
        (Wal.appendCheckpoint (Wal.append [] 1 helloWorldBytes)
          (Wal.currentOffset (Wal.append [] 1 helloWorldBytes)))
        2 (List.replicate 8192 42)) 0
      = [(1, helloWorldBytes), (2, List.replicate 8192 42)] := by
  unfold Wal.replayFromOffset Wal.append Wal.appendCheckpoint
  simp only [List.drop_zero, List.nil_append, List.append_assoc]
  have hbuf0 : (List.replicate Wal.WAL_PAGE_SIZE 0).length = Wal.WAL_PAGE_SIZE := by
    simp
  have hcur0 : (⟨none, 0, [], []⟩ : Wal.RState).curId ≠ some (1 % 2 ^ 64) := by
    simp
  rw [Wal.replayLoop_record_one 1 helloWorldBytes _ _ _ (by norm_num [helloWorldBytes])
    (by norm_num [helloWorldBytes]) hbuf0 hcur0]
  rw [Wal.appendInternal_one 1 0 _ (by simp) (by simp)]
  simp only [List.append_nil]
  rw [Wal.replayLoop_encodeFrame 1 0 0 1 _ _ _ _ (by simp)
    (Wal.encodeFrame_length (by norm_num [helloWorldBytes])) (by norm_num)]
  rw [if_neg (by norm_num)]
  rw [show Wal.appendInternal 0 2 (List.replicate 8192 42)
      = Wal.appendInternal 0 2 (List.replicate 8192 42) ++ [] from
    (List.append_nil _).symm]
  rw [Wal.replayLoop_record_three 2 (List.replicate 8192 42) [] _ _
    (by rw [List.length_replicate]; norm_num) (by rw [List.length_replicate]; norm_num)
    (Wal.encodeFrame_length (by simp)) (by simp)]
  rw [Wal.replayLoop_short _ _ _ (by simp [Wal.WAL_PAGE_SIZE])]
  norm_num

/-- C8: a Data frame for a different page index discards the partial
reassembly in progress — after an interrupted first chunk (chunk 0 of an
announced 2) for page `pidA`, a complete record for page `pidB` replays to
exactly one callback for `pidB`, and no callback ever fires for `pidA`. -/
theorem wal_interrupted_record_discarded (pidA pidB : Nat) (chunkA dataB : List Nat)
    (hA : chunkA.length ≤ 4067) (hB : dataB.length ≤ 4067)
    (hne : pidA % 2 ^ 64 ≠ pidB % 2 ^ 64) :
    Wal.replayFromOffset (Wal.encodeFrame 0 pidA 0 2 chunkA ++ Wal.append [] pidB dataB) 0
      = [(pidB % 2 ^ 64, dataB)] := by
  unfold Wal.replayFromOffset Wal.append
  simp only [List.drop_zero, List.nil_append]
  rw [Wal.replayLoop_encodeFrame 0 pidA 0 2 chunkA _ _ _ hA (by simp) (by norm_num)]
  rw [if_pos rfl]
  have hs1 : Wal.processDataFrame (pidA % 2 ^ 64) (0 % 2 ^ 32) (2 % 2 ^ 32) chunkA
      ⟨none, 0, [], []⟩ = ⟨some (pidA % 2 ^ 64), 2, [chunkA, []], []⟩ := by
    unfold Wal.processDataFrame
    simp
  rw [hs1]
  have hcur1 : (⟨some (pidA % 2 ^ 64), 2, [chunkA, []], []⟩ : Wal.RState).curId
      ≠ some (pidB % 2 ^ 64) := by
    simpa using hne
  rw [show Wal.appendInternal 0 pidB dataB = Wal.appendInternal 0 pidB dataB ++ [] from
    (List.append_nil _).symm]
  rcases Nat.eq_zero_or_pos dataB.length with hz | hpos
  · have hd : dataB = [] := List.length_eq_zero.mp hz
    subst hd
    rw [Wal.replayLoop_record_empty pidB [] _ _ (Wal.encodeFrame_length hA) hcur1]
    rw [Wal.replayLoop_short _ _ _ (by simp [Wal.WAL_PAGE_SIZE])]
    rfl
  · rw [Wal.replayLoop_record_one pidB dataB [] _ _ hpos hB
      (Wal.encodeFrame_length hA) hcur1]
    rw [Wal.replayLoop_short _ _ _ (by simp [Wal.WAL_PAGE_SIZE])]
    rfl

/-- Witness for C8: page 1's lone first chunk (of an announced 2) is
discarded; page 2's record `[5]` is the only callback. -/
theorem wal_interrupted_record_discarded_witness :
    Wal.replayFromOffset (Wal.encodeFrame 0 1 0 2 [9] ++ Wal.append [] 2 [5]) 0
      = [(2, [5])] := by
  simpa using wal_interrupted_record_discarded 1 2 [9] [5] (by norm_num) (by norm_num)
    (by norm_num)

/-- A data frame whose chunk index is at least the current record's
expected chunk count leaves the replay state unchanged: the reset branch is
skipped (same page id), the slot assignment is guarded away, and the
completion check still fails on the incomplete record. -/
theorem Wal.processDataFrame_out_of_range (pageId chunkId totalChunks : Nat)
    (data : List Nat) (st : Wal.RState) (hcur : st.curId = some pageId)
    (hge : st.expected ≤ chunkId)
    (hinc : st.collected.all (fun c => !c.isEmpty) = false) :
    Wal.processDataFrame pageId chunkId totalChunks data st = st := by
  have hlt : ¬ (chunkId < st.expected) := Nat.not_lt.mpr hge
  unfold Wal.processDataFrame
  rw [hcur]
  simp [hlt, hinc]

/-- C10: during replay, a well-formed Data frame whose chunk index is at
least the current record's expected chunk count is silently ignored: for
any mid-replay state whose current record is still incomplete, such a frame
(any payload, any total-chunks field) leaves the replay state unchanged and
replay continues with the next frame; in particular a record announced with
2 chunks still completes from chunks 0 and 1 alone when any frame with
chunk index `cid >= 2` (including the boundary `cid = 2`) sits between
them. -/
theorem wal_out_of_range_chunk_ignored (pid cid tot : Nat) (cX c0 c1 : List Nat)
    (st : Wal.RState) (rest buf : List Nat)
    (hX : cX.length ≤ 4067) (hbuf : buf.length = Wal.WAL_PAGE_SIZE)
    (hcur : st.curId = some (pid % 2 ^ 64))
    (hge : st.expected ≤ cid % 2 ^ 32)
    (hinc : st.collected.all (fun c => !c.isEmpty) = false)
    (hge2 : 2 ≤ cid % 2 ^ 32)
    (h0 : 1 ≤ c0.length) (h0' : c0.length ≤ 4067)
    (h1 : 1 ≤ c1.length) (h1' : c1.length ≤ 4067) :
    (Wal.replayLoop (Wal.encodeFrame 0 pid cid tot cX ++ rest) buf st
      = Wal.replayLoop rest (Wal.encodeFrame 0 pid cid tot cX) st) ∧
    Wal.replayFromOffset
      (Wal.encodeFrame 0 pid 0 2 c0 ++
        (Wal.encodeFrame 0 pid cid tot cX ++ (Wal.encodeFrame 0 pid 1 2 c1 ++ []))) 0
      = [(pid % 2 ^ 64, c0 ++ c1)] := by
  have hne0 : c0.isEmpty = false := Wal.isEmpty_false_of_length_pos (by omega)
  have hne1 : c1.isEmpty = false := Wal.isEmpty_false_of_length_pos (by omega)
  constructor
  · rw [Wal.replayLoop_encodeFrame 0 pid cid tot cX rest buf st hX hbuf (by norm_num)]
    rw [if_pos rfl]
    rw [Wal.processDataFrame_out_of_range (pid % 2 ^ 64) (cid % 2 ^ 32)
      (tot % 2 ^ 32) cX st hcur hge hinc]
  · unfold Wal.replayFromOffset
    simp only [List.drop_zero]
    rw [Wal.replayLoop_encodeFrame 0 pid 0 2 c0 _ _ _ h0' (by simp) (by norm_num)]
    rw [if_pos rfl]
    have hs1 : Wal.processDataFrame (pid % 2 ^ 64) (0 % 2 ^ 32) (2 % 2 ^ 32) c0
        ⟨none, 0, [], []⟩ = ⟨some (pid % 2 ^ 64), 2, [c0, []], []⟩ := by
      unfold Wal.processDataFrame
      simp
    rw [hs1]
    rw [Wal.replayLoop_encodeFrame 0 pid cid tot cX _ _ _ hX
      (Wal.encodeFrame_length h0') (by norm_num)]
    rw [if_pos rfl]
    rw [Wal.processDataFrame_out_of_range (pid % 2 ^ 64) (cid % 2 ^ 32)
      (tot % 2 ^ 32) cX ⟨some (pid % 2 ^ 64), 2, [c0, []], []⟩ rfl hge2 (by simp)]
    rw [Wal.replayLoop_encodeFrame 0 pid 1 2 c1 _ _ _ h1'
      (Wal.encodeFrame_length hX) (by norm_num)]
    rw [if_pos rfl]
    have hs3 : Wal.processDataFrame (pid % 2 ^ 64) (1 % 2 ^ 32) (2 % 2 ^ 32) c1
        ⟨some (pid % 2 ^ 64), 2, [c0, []], []⟩
        = ⟨none, 2, [c0, c1], [(pid % 2 ^ 64, c0 ++ c1)]⟩ := by
      unfold Wal.processDataFrame
      simp [hne0, hne1]
    rw [hs3]
    rw [Wal.replayLoop_short _ _ _ (by simp [Wal.WAL_PAGE_SIZE])]

/-- Witness for C10 at the boundary case: chunk index 2 against an expected
count of 2, between chunks `[7]` and `[9]` of page 3; the bogus `[8]` frame
changes nothing and the record `[7, 9]` is still delivered. -/
theorem wal_out_of_range_chunk_ignored_witness :
    ((1 : Nat) ≤ 1 ∧ (2 : Nat) ≤ 2 % 2 ^ 32 ∧
      (Wal.RState.mk (some 3) 2 [[7], []] []).curId = some (3 % 2 ^ 64) ∧
      (Wal.RState.mk (some 3) 2 [[7], []] []).collected.all
        (fun c => !c.isEmpty) = false) ∧
    (Wal.replayLoop (Wal.encodeFrame 0 3 2 2 [8] ++ []) (List.replicate 4096 0)
        (Wal.RState.mk (some 3) 2 [[7], []] [])
      = Wal.replayLoop [] (Wal.encodeFrame 0 3 2 2 [8])
          (Wal.RState.mk (some 3) 2 [[7], []] [])) ∧
    Wal.replayFromOffset
      (Wal.encodeFrame 0 3 0 2 [7] ++
        (Wal.encodeFrame 0 3 2 2 [8] ++ (Wal.encodeFrame 0 3 1 2 [9] ++ []))) 0
      = [(3 % 2 ^ 64, [7, 9])] := by
  have h := wal_out_of_range_chunk_ignored 3 2 2 [8] [7] [9]
    (Wal.RState.mk (some 3) 2 [[7], []] []) [] (List.replicate 4096 0)
    (by norm_num) (by simp only [List.length_replicate, Wal.WAL_PAGE_SIZE])
    (show some 3 = some ((3 : Nat) % 2 ^ 64) by norm_num)
    (show (2 : Nat) ≤ 2 % 2 ^ 32 by norm_num)
    (by decide)
    (by norm_num) (by norm_num) (by norm_num) (by norm_num) (by norm_num)
  exact ⟨⟨by norm_num, by norm_num, by norm_num, by decide⟩, h.1, h.2⟩

namespace Wal

/-! ### Stop conditions of replay (C2) -/

/-- A frame kind byte that is neither 0 nor 1 makes the body `break`. -/
theorem parseFrame_none_badkind (f : List Nat) (st : RState) (h : 2 ≤ f.headD 0) :
    parseFrame f st = none := by
  simp only [parseFrame]
  rw [if_pos h]

/-- A magic mismatch makes the body `break` (whatever the kind byte was). -/
theorem parseFrame_none_badmagic (f : List Nat) (st : RState)
    (h : fromLEBytes (sliceBytes f 1 5) ≠ WAL_MAGIC) : parseFrame f st = none := by
  simp only [parseFrame]
  by_cases h2 : 2 ≤ f.headD 0
  · rw [if_pos h2]
  · rw [if_neg h2, if_pos h]

/-- A payload-length field implying a frame larger than `WAL_PAGE_SIZE`
makes the body `break` (whatever the earlier checks did). -/
theorem parseFrame_none_oversize (f : List Nat) (st : RState)
    (h : WAL_PAGE_SIZE < 25 + fromLEBytes (sliceBytes f 21 25) + 4) :
    parseFrame f st = none := by
  simp only [parseFrame]
  by_cases h2 : 2 ≤ f.headD 0
  · rw [if_pos h2]
  · rw [if_neg h2]
    by_cases h3 : fromLEBytes (sliceBytes f 1 5) ≠ WAL_MAGIC
    · rw [if_pos h3]
    · rw [if_neg h3, if_pos h]

/-- A CRC mismatch makes the body `break` (whatever the earlier checks did). -/
theorem parseFrame_none_badcrc (f : List Nat) (st : RState)
    (h : crc32 (sliceBytes f 25 (25 + fromLEBytes (sliceBytes f 21 25))) ≠
      fromLEBytes (sliceBytes f (25 + fromLEBytes (sliceBytes f 21 25))
        (29 + fromLEBytes (sliceBytes f 21 25)))) :
    parseFrame f st = none := by
  simp only [parseFrame]
  by_cases h2 : 2 ≤ f.headD 0
  · rw [if_pos h2]
  · rw [if_neg h2]
    by_cases h3 : fromLEBytes (sliceBytes f 1 5) ≠ WAL_MAGIC
    · rw [if_pos h3]
    · rw [if_neg h3]
      by_cases h4 : WAL_PAGE_SIZE < 25 + fromLEBytes (sliceBytes f 21 25) + 4
      · rw [if_pos h4]
      · rw [if_neg h4, if_pos h]

/-- Reading a full frame that sits at the head of the remaining input. -/
theorem readFrame_full {F : List Nat} (rest buf : List Nat)
    (hF : F.length = WAL_PAGE_SIZE) (hbuf : buf.length = WAL_PAGE_SIZE) :
    readFrame (F ++ rest) buf = F := by
  unfold readFrame
  have hmin : min WAL_PAGE_SIZE (F ++ rest).length = WAL_PAGE_SIZE := by
    simp [List.length_append, hF]
  rw [hmin, List.take_left' hF, List.drop_eq_nil_of_le (le_of_eq hbuf), List.append_nil]

end Wal

/-- C2: replay never fails on malformed input — a read shorter than the
29-byte minimum header (which includes a zero-byte read at EOF), an unknown
frame kind byte, a magic mismatch, a payload length implying a frame larger
than `WAL_PAGE_SIZE`, and a CRC mismatch each end the loop, delivering
exactly the records completed before that frame (in the model the loop is a
total function, the counterpart of the source's `Ok(())` on every `break`);
in particular, corrupting one byte of the CRC field of a record's frame
stops replay before that record and everything after it, while the earlier
fully-valid record is still delivered. -/
theorem wal_replay_stop_conditions :
    (∀ (rem buf : List Nat) (st : Wal.RState),
      min Wal.WAL_PAGE_SIZE rem.length < 29 → Wal.replayLoop rem buf st = st.acc) ∧
    (∀ (rem buf : List Nat) (st : Wal.RState),
      2 ≤ (Wal.readFrame rem buf).headD 0 → Wal.replayLoop rem buf st = st.acc) ∧
    (∀ (rem buf : List Nat) (st : Wal.RState),
      fromLEBytes (Wal.sliceBytes (Wal.readFrame rem buf) 1 5) ≠ Wal.WAL_MAGIC →
      Wal.replayLoop rem buf st = st.acc) ∧
    (∀ (rem buf : List Nat) (st : Wal.RState),
      Wal.WAL_PAGE_SIZE <
          25 + fromLEBytes (Wal.sliceBytes (Wal.readFrame rem buf) 21 25) + 4 →
      Wal.replayLoop rem buf st = st.acc) ∧
    (∀ (rem buf : List Nat) (st : Wal.RState),
      crc32 (Wal.sliceBytes (Wal.readFrame rem buf) 25
          (25 + fromLEBytes (Wal.sliceBytes (Wal.readFrame rem buf) 21 25))) ≠
        fromLEBytes (Wal.sliceBytes (Wal.readFrame rem buf)
          (25 + fromLEBytes (Wal.sliceBytes (Wal.readFrame rem buf) 21 25))
          (29 + fromLEBytes (Wal.sliceBytes (Wal.readFrame rem buf) 21 25))) →
      Wal.replayLoop rem buf st = st.acc) ∧
    (∀ (id1 id2 j v : Nat) (data1 data2 rest : List Nat),
      1 ≤ data1.length → data1.length ≤ 4067 →
      1 ≤ data2.length → data2.length ≤ 4067 →
      j < 4 → v < 256 → v ≠ (toLEBytes 4 (crc32 data2)).getD j 0 →
      Wal.replayFromOffset
        ((Wal.append (Wal.append [] id1 data1) id2 data2).set
          (4096 + 25 + data2.length + j) v ++ rest) 0
        = [(id1 % 2 ^ 64, data1)]) := by
  refine ⟨?_, ?_, ?_, ?_, ?_, ?_⟩
  · intro rem buf st h
    exact Wal.replayLoop_short rem buf st h
  · intro rem buf st h
    by_cases hs : min Wal.WAL_PAGE_SIZE rem.length < 29
    · exact Wal.replayLoop_short rem buf st hs
    · exact Wal.replayLoop_break rem buf st hs (Wal.parseFrame_none_badkind _ _ h)
  · intro rem buf st h
    by_cases hs : min Wal.WAL_PAGE_SIZE rem.length < 29
    · exact Wal.replayLoop_short rem buf st hs
    · exact Wal.replayLoop_break rem buf st hs (Wal.parseFrame_none_badmagic _ _ h)
  · intro rem buf st h
    by_cases hs : min Wal.WAL_PAGE_SIZE rem.length < 29
    · exact Wal.replayLoop_short rem buf st hs
    · exact Wal.replayLoop_break rem buf st hs (Wal.parseFrame_none_oversize _ _ h)
  · intro rem buf st h
    by_cases hs : min Wal.WAL_PAGE_SIZE rem.length < 29
    · exact Wal.replayLoop_short rem buf st hs
    · exact Wal.replayLoop_break rem buf st hs (Wal.parseFrame_none_badcrc _ _ h)
  · intro id1 id2 j v data1 data2 rest h1a h1b h2a h2b hj hv hvne
    have hr : (toLEBytes 4 (crc32 data2)).length = 4 := toLEBytes_length _ _
    unfold Wal.replayFromOffset Wal.append
    simp only [List.drop_zero, List.nil_append]
    rw [Wal.appendInternal_one 0 id1 data1 h1a h1b,
        Wal.appendInternal_one 0 id2 data2 h2a h2b]
    simp only [List.append_nil]
    have hF1len : (Wal.encodeFrame 0 id1 0 1 data1).length = Wal.WAL_PAGE_SIZE :=
      Wal.encodeFrame_length h1b
    rw [List.set_append_right _ _ (by
      show (Wal.encodeFrame 0 id1 0 1 data1).length ≤ 4096 + 25 + data2.length + j
      rw [hF1len]; unfold Wal.WAL_PAGE_SIZE; omega)]
    rw [show 4096 + 25 + data2.length + j - (Wal.encodeFrame 0 id1 0 1 data1).length
        = 25 + data2.length + j from by
      rw [hF1len]; unfold Wal.WAL_PAGE_SIZE; omega]
    rw [show Wal.encodeFrame 0 id2 0 1 data2
        = (0 :: (toLEBytes 4 Wal.WAL_MAGIC ++ toLEBytes 8 id2 ++ toLEBytes 4 0 ++
            toLEBytes 4 1 ++ toLEBytes 4 data2.length ++ data2)) ++
          (toLEBytes 4 (crc32 data2) ++
            List.replicate (Wal.WAL_PAGE_SIZE - 29 - data2.length) 0) from by
      simp [Wal.encodeFrame, Wal.frameBytes]]
    rw [List.set_append_right _ _ (by
      show (0 :: (toLEBytes 4 Wal.WAL_MAGIC ++ toLEBytes 8 id2 ++ toLEBytes 4 0 ++
        toLEBytes 4 1 ++ toLEBytes 4 data2.length ++ data2)).length
        ≤ 25 + data2.length + j
      simp only [List.length_cons, List.length_append, toLEBytes_length]; omega)]
    rw [show 25 + data2.length + j - (0 :: (toLEBytes 4 Wal.WAL_MAGIC ++ toLEBytes 8 id2 ++
        toLEBytes 4 0 ++ toLEBytes 4 1 ++ toLEBytes 4 data2.length ++ data2)).length
        = j from by
      simp only [List.length_cons, List.length_append, toLEBytes_length]; omega]
    rw [List.set_append_left _ _ (by
      show j < (toLEBytes 4 (crc32 data2)).length
      rw [hr]; omega)]
    rw [show (0 :: (toLEBytes 4 Wal.WAL_MAGIC ++ toLEBytes 8 id2 ++ toLEBytes 4 0 ++
          toLEBytes 4 1 ++ toLEBytes 4 data2.length ++ data2)) ++
        ((toLEBytes 4 (crc32 data2)).set j v ++
          List.replicate (Wal.WAL_PAGE_SIZE - 29 - data2.length) 0)
        = Wal.frameBytes 0 (toLEBytes 4 Wal.WAL_MAGIC) (toLEBytes 8 id2) (toLEBytes 4 0)
            (toLEBytes 4 1) (toLEBytes 4 data2.length) data2
            ((toLEBytes 4 (crc32 data2)).set j v)
            (List.replicate (Wal.WAL_PAGE_SIZE - 29 - data2.length) 0) from by
      simp [Wal.frameBytes]]
    simp only [List.append_assoc]
    have hne1 : data1.isEmpty = false := Wal.isEmpty_false_of_length_pos (by omega)
    rw [Wal.replayLoop_encodeFrame 0 id1 0 1 data1 _ _ _ h1b (by simp) (by norm_num)]
    rw [if_pos rfl]
    rw [show Wal.processDataFrame (id1 % 2 ^ 64) (0 % 2 ^ 32) (1 % 2 ^ 32) data1
        ⟨none, 0, [], []⟩ = ⟨none, 1, [data1], [(id1 % 2 ^ 64, data1)]⟩ from by
      unfold Wal.processDataFrame
      simp [hne1]]
    have hlenset : ((toLEBytes 4 (crc32 data2)).set j v).length = 4 := by
      rw [List.length_set, hr]
    have hF2len : (Wal.frameBytes 0 (toLEBytes 4 Wal.WAL_MAGIC) (toLEBytes 8 id2)
        (toLEBytes 4 0) (toLEBytes 4 1) (toLEBytes 4 data2.length) data2
        ((toLEBytes 4 (crc32 data2)).set j v)
        (List.replicate (Wal.WAL_PAGE_SIZE - 29 - data2.length) 0)).length
        = Wal.WAL_PAGE_SIZE := by
      rw [Wal.frameBytes_length (toLEBytes_length _ _) (toLEBytes_length _ _)
        (toLEBytes_length _ _) (toLEBytes_length _ _) (toLEBytes_length _ _) hlenset]
      simp only [List.length_replicate]
      unfold Wal.WAL_PAGE_SIZE
      omega
    rw [Wal.replayLoop_break _ _ _
      (by rw [List.length_append, hF2len]; unfold Wal.WAL_PAGE_SIZE; omega)
      (by
        rw [Wal.readFrame_full rest _ hF2len (Wal.encodeFrame_length h1b)]
        apply Wal.parseFrame_none_badcrc
        rw [Wal.frameBytes_len (toLEBytes_length _ _) (toLEBytes_length _ _)
          (toLEBytes_length _ _) (toLEBytes_length _ _) (toLEBytes_length _ _)]
        rw [fromLEBytes_toLEBytes_of_lt (by rw [Wal.pow256_4]; omega)]
        rw [Wal.frameBytes_data (toLEBytes_length _ _) (toLEBytes_length _ _)
          (toLEBytes_length _ _) (toLEBytes_length _ _) (toLEBytes_length _ _)]
        rw [Wal.frameBytes_crc (toLEBytes_length _ _) (toLEBytes_length _ _)
          (toLEBytes_length _ _) (toLEBytes_length _ _) (toLEBytes_length _ _) hlenset]
        have hne2 := fromLEBytes_set_ne (toLEBytes 4 (crc32 data2)) j v
          (toLEBytes_lt 4 _) hv (by rw [hr]; omega) hvne
        rw [fromLEBytes_toLEBytes_of_lt (by rw [Wal.pow256_4]; exact crc32_lt data2)] at hne2
        exact hne2.symm)]

/-- Witness for C2: one concrete instance of each stopping condition
(short/empty reads, bad kind byte, bad magic, oversized length field, CRC
mismatch) and the CRC-corruption scenario at pages 1 and 2 with payloads
`[5]` and `[6]`. -/
theorem wal_replay_stop_conditions_witness :
    (Wal.replayLoop [] [] ⟨none, 0, [], []⟩ = []) ∧
    (Wal.replayLoop [9] [] ⟨none, 0, [], []⟩ = []) ∧
    (Wal.replayLoop [0] [] ⟨none, 0, [], []⟩ = []) ∧
    (Wal.replayLoop (List.replicate 21 0 ++ [255, 255, 255, 255]) []
      ⟨none, 0, [], []⟩ = []) ∧
    (Wal.replayLoop (List.replicate 25 0 ++ [1, 2, 3, 4]) []
      ⟨none, 0, [], []⟩ = []) ∧
    (Wal.replayFromOffset
      ((Wal.append (Wal.append [] 1 [5]) 2 [6]).set (4096 + 25 + 1 + 0) 0 ++ []) 0
      = [(1, [5])]) := by
  refine ⟨?_, ?_, ?_, ?_, ?_, ?_⟩
  · exact wal_replay_stop_conditions.1 [] [] _ (by decide)
  · exact wal_replay_stop_conditions.2.1 [9] [] _ (by decide)
  · exact wal_replay_stop_conditions.2.2.1 [0] [] _ (by decide)
  · exact wal_replay_stop_conditions.2.2.2.1 _ [] _ (by decide)
  · exact wal_replay_stop_conditions.2.2.2.2.1 _ [] _ (by decide)
  · simpa using wal_replay_stop_conditions.2.2.2.2.2 1 2 0 0 [5] [6] []
      (by decide) (by decide) (by decide) (by decide) (by decide) (by decide) (by decide)

/-! ### Association-list facts for the PageCache maps -/

theorem lookupA_insertA_self {α : Type} (l : List (Nat × α)) (k : Nat) (v : α) :
    lookupA (insertA l k v) k = some v := by
  induction l with
  | nil => simp [insertA, lookupA]
  | cons p rest ih =>
    obtain ⟨a, b⟩ := p
    by_cases ha : a = k
    · simp [insertA, lookupA, ha]
    · simp [insertA, lookupA, ha, ih]

theorem lookupA_insertA_ne {α : Type} (l : List (Nat × α)) (k i : Nat) (v : α)
    (h : k ≠ i) : lookupA (insertA l k v) i = lookupA l i := by
  induction l with
  | nil => simp [insertA, lookupA, h]
  | cons p rest ih =>
    obtain ⟨a, b⟩ := p
    by_cases ha : a = k
    · subst ha
      simp [insertA, lookupA, h]
    · simp [insertA, lookupA, ha, ih]

theorem lookupA_removeA_ne {α : Type} (l : List (Nat × α)) (k i : Nat) (h : k ≠ i) :
    lookupA (removeA l k) i = lookupA l i := by
  induction l with
  | nil => rfl
  | cons p rest ih =>
    obtain ⟨a, b⟩ := p
    by_cases ha : a = k
    · subst ha
      simp [removeA, lookupA, h]
    · simp [removeA, lookupA, ha, ih]

theorem insertA_of_lookupA_none {α : Type} (l : List (Nat × α)) (k : Nat) (v : α)
    (h : lookupA l k = none) : insertA l k v = l ++ [(k, v)] := by
  induction l with
  | nil => rfl
  | cons p rest ih =>
    obtain ⟨a, b⟩ := p
    by_cases ha : a = k
    · simp [lookupA, ha] at h
    · simp only [lookupA, if_neg ha] at h
      simp [insertA, ha, ih h]

theorem lookupA_map_none {α : Type} (l : List Nat) (f : Nat → α) (q : Nat)
    (h : q ∉ l) : lookupA (l.map fun i => (i, f i)) q = none := by
  induction l with
  | nil => rfl
  | cons a rest ih =>
    simp only [List.mem_cons, not_or] at h
    simp [lookupA, Ne.symm h.1, ih h.2]

theorem lookupA_map_self {α : Type} (l : List Nat) (f : Nat → α) (q : Nat)
    (h : q ∈ l) : lookupA (l.map fun i => (i, f i)) q = some (f q) := by
  induction l with
  | nil => simp at h
  | cons a rest ih =>
    by_cases ha : a = q
    · subst ha
      simp [lookupA]
    · rcases List.mem_cons.mp h with rfl | hm
      · exact absurd rfl ha
      · simp [lookupA, ha, ih hm]

/-! ### Eviction-loop facts -/

/-- The loop does nothing when the cache is within capacity. -/
theorem evictLoop_of_le (fuel : Nat) (s : PageCache)
    (h : s.cache.length ≤ s.capacity) : evictLoop fuel s = some s := by
  unfold evictLoop
  rw [if_neg (not_lt.mpr h)]

/-- The loop stops (without touching the state) when the LRU queue is empty. -/
theorem evictLoop_nil (fuel : Nat) (s : PageCache) (hlru : s.lru = []) :
    evictLoop fuel s = some s := by
  unfold evictLoop
  rw [hlru]
  split <;> rfl

/-- Out of fuel while over capacity with a nonempty queue. -/
theorem evictLoop_zero_cons (s : PageCache) (v : Nat) (rest : List Nat)
    (hcap : s.capacity < s.cache.length) (hlru : s.lru = v :: rest) :
    evictLoop 0 s = none := by
  unfold evictLoop
  rw [if_pos hcap, hlru]

/-- One iteration of the `while` loop over capacity: requeue a dirty victim,
or evict a clean one. -/
theorem evictLoop_succ_cons (fuel : Nat) (s : PageCache) (v : Nat) (rest : List Nat)
    (hcap : s.capacity < s.cache.length) (hlru : s.lru = v :: rest) :
    evictLoop (fuel + 1) s =
      if s.lookupDirty v then evictLoop fuel { s with lru := rest ++ [v] }
      else
        evictLoop fuel
          { s with
            lru := rest
            cache := removeA s.cache v
            dirty_flag := removeA s.dirty_flag v } := by
  conv_lhs => rw [evictLoop]
  rw [if_pos hcap, hlru]

/-- A page whose dirty flag is set is never evicted, and keeps its cache
entry and flag across any terminating run of the loop. -/
theorem evictLoop_preserves_dirty (fuel : Nat) (s s' : PageCache) (i : Nat)
    (hs : evictLoop fuel s = some s')
    (hd : lookupA s.dirty_flag i = some true) :
    lookupA s'.dirty_flag i = some true ∧
      (∀ b, lookupA s.cache i = some b → lookupA s'.cache i = some b) := by
  induction fuel generalizing s with
  | zero =>
    by_cases hcap : s.capacity < s.cache.length
    · rcases hlru : s.lru with _ | ⟨v, rest⟩
      · rw [evictLoop_nil 0 s hlru] at hs
        cases hs
        exact ⟨hd, fun b hb => hb⟩
      · rw [evictLoop_zero_cons s v rest hcap hlru] at hs
        cases hs
    · rw [evictLoop_of_le 0 s (not_lt.mp hcap)] at hs
      cases hs
      exact ⟨hd, fun b hb => hb⟩
  | succ fuel ih =>
    by_cases hcap : s.capacity < s.cache.length
    · rcases hlru : s.lru with _ | ⟨v, rest⟩
      · rw [evictLoop_nil (fuel + 1) s hlru] at hs
        cases hs
        exact ⟨hd, fun b hb => hb⟩
      · rw [evictLoop_succ_cons fuel s v rest hcap hlru] at hs
        by_cases hdv : s.lookupDirty v
        · rw [if_pos hdv] at hs
          exact ih { s with lru := rest ++ [v] } hs hd
        · rw [if_neg hdv] at hs
          have hvi : v ≠ i := by
            intro hvi
            subst hvi
            unfold PageCache.lookupDirty at hdv
            rw [hd] at hdv
            simp at hdv
          have hrec := ih
            { s with lru := rest, cache := removeA s.cache v,
                     dirty_flag := removeA s.dirty_flag v } hs (by
            show lookupA (removeA s.dirty_flag v) i = some true
            rw [lookupA_removeA_ne _ _ _ hvi]
            exact hd)
          refine ⟨hrec.1, fun b hb => hrec.2 b ?_⟩
          show lookupA (removeA s.cache v) i = some b
          rw [lookupA_removeA_ne _ _ _ hvi]
          exact hb
    · rw [evictLoop_of_le (fuel + 1) s (not_lt.mp hcap)] at hs
      cases hs
      exact ⟨hd, fun b hb => hb⟩

/-- With every LRU entry dirty and the cache over capacity, the loop never
terminates: each iteration requeues the dirty victim, the cache size never
shrinks, and no amount of fuel reaches the exit. -/
theorem evictLoop_none_of_all_dirty (s : PageCache)
    (hcap : s.capacity < s.cache.length) (hne : s.lru ≠ [])
    (hall : ∀ v ∈ s.lru, s.lookupDirty v = true) :
    ∀ fuel, evictLoop fuel s = none := by
  intro fuel
  induction fuel generalizing s with
  | zero =>
    rcases hlru : s.lru with _ | ⟨v, rest⟩
    · exact absurd hlru hne
    · exact evictLoop_zero_cons s v rest hcap hlru
  | succ fuel ih =>
    rcases hlru : s.lru with _ | ⟨v, rest⟩
    · exact absurd hlru hne
    · rw [evictLoop_succ_cons fuel s v rest hcap hlru]
      rw [if_pos (hall v (by rw [hlru]; exact List.mem_cons_self v rest))]
      exact ih _ hcap (by simp) (by
        intro x hx
        simp only [List.mem_append, List.mem_singleton] at hx
        show s.lookupDirty x = true
        rcases hx with hx | rfl
        · exact hall x (by rw [hlru]; exact List.mem_cons_of_mem v hx)
        · exact hall x (by rw [hlru]; exact List.mem_cons_self x rest))

/-! ### Unfolding `get_page` -/

/-- The hit branch of `get_page`: promote and return the cached buffer. -/
theorem get_page_hit (fuel : Nat) (s : PageCache) (i : Nat) (b : List Nat)
    (h : lookupA s.cache i = some b) :
    PageCache.get_page fuel s i = some ({ s with lru := s.lru.erase i ++ [i] }, b) := by
  unfold PageCache.get_page
  rw [h]

/-- The miss branch of `get_page`: read through the pager, insert, promote,
then evict. -/
theorem get_page_miss (fuel : Nat) (s : PageCache) (i : Nat)
    (h : lookupA s.cache i = none) :
    PageCache.get_page fuel s i =
      match evictLoop fuel { s with cache := insertA s.cache i (s.pager.read_page i),
                                    lru := s.lru ++ [i] } with
      | none => none
      | some s2 => some (s2, s.pager.read_page i) := by
  unfold PageCache.get_page
  rw [h]

/-- The pager over an empty (freshly created) file. -/
def emptyPager : Pager := ⟨[]⟩

/-- An empty cache over an empty file with capacity 3. -/
def emptyCache3 : PageCache := ⟨emptyPager, [], [], [], 3⟩

/-- C3 counterexample: `mark_dirty` on a page that is not cached does NOT
leave the `PageCache` state unchanged — it records a dirty flag for the
absent page (`dirty_flag.insert(page_id, true)` is unconditional). -/
theorem mark_dirty_uncached_changes_state_cex :
    ¬ (PageCache.mark_dirty emptyCache3 1 = emptyCache3) := by
  decide

/-- C3 amended: `mark_dirty(i)` for an uncached `i` does not fail and leaves
the pager, the cache entries, the recency queue and the capacity unchanged,
but it does record a dirty flag for `i`; a later `get_page(i)` miss
therefore inserts the page as an entry that is already flagged dirty — not
as a clean entry. -/
theorem mark_dirty_uncached_amended (s : PageCache) (i : Nat)
    (h : lookupA s.cache i = none) :
    (PageCache.mark_dirty s i).pager = s.pager ∧
    (PageCache.mark_dirty s i).cache = s.cache ∧
    (PageCache.mark_dirty s i).lru = s.lru ∧
    (PageCache.mark_dirty s i).capacity = s.capacity ∧
    lookupA (PageCache.mark_dirty s i).dirty_flag i = some true ∧
    (∀ fuel s' buf,
      PageCache.get_page fuel (PageCache.mark_dirty s i) i = some (s', buf) →
      buf = s.pager.read_page i ∧
      lookupA s'.cache i = some (s.pager.read_page i) ∧
      lookupA s'.dirty_flag i = some true) := by
  refine ⟨rfl, rfl, rfl, rfl, lookupA_insertA_self _ _ _, ?_⟩
  intro fuel s' buf hget
  rw [get_page_miss fuel (PageCache.mark_dirty s i) i h] at hget
  rcases hev : evictLoop fuel
      { PageCache.mark_dirty s i with
        cache := insertA (PageCache.mark_dirty s i).cache i
          ((PageCache.mark_dirty s i).pager.read_page i),
        lru := (PageCache.mark_dirty s i).lru ++ [i] } with _ | s2
  · rw [hev] at hget
    cases hget
  · rw [hev] at hget
    simp only [Option.some.injEq, Prod.mk.injEq] at hget
    obtain ⟨h1, h2⟩ := hget
    subst h1
    subst h2
    have hpres := evictLoop_preserves_dirty fuel _ _ i hev
      (by
        show lookupA (insertA s.dirty_flag i true) i = some true
        exact lookupA_insertA_self _ _ _)
    exact ⟨rfl, hpres.2 _ (lookupA_insertA_self _ _ _), hpres.1⟩

/-- Witness for the amended C3 at the empty capacity-3 cache and page 1. -/
theorem mark_dirty_uncached_amended_witness :
    lookupA (PageCache.mark_dirty emptyCache3 1).dirty_flag 1 = some true :=
  (mark_dirty_uncached_amended emptyCache3 1 (by decide)).2.2.2.2.1

/-- The cache state after fetching page 1 into an empty capacity-1 cache. -/
def c4s1 : PageCache := ⟨emptyPager, [(1, emptyPager.read_page 1)], [], [1], 1⟩

/-- The over-capacity all-dirty state the eviction loop is entered with in
the C4 scenario (capacity 1, pages 1 and 2 cached, both flagged dirty). -/
def c4over : PageCache :=
  ⟨emptyPager, [(1, emptyPager.read_page 1), (2, emptyPager.read_page 2)],
    [(1, true), (2, true)], [1, 2], 1⟩

/-- C4 (code bug): when the entry count exceeds the capacity and every
cached entry is dirty, `evict_if_necessary` does NOT terminate — the loop
requeues the dirty victim and `cache.len()` never shrinks, so no fuel bound
makes it stop; the state is reachable through the public API (capacity 1:
`get_page(1)`, `mark_dirty(1)`, `mark_dirty(2)`, `get_page(2)` hangs). -/
theorem evict_all_dirty_loops_forever :
    (PageCache.get_page 1 ⟨emptyPager, [], [], [], 1⟩ 1
      = some (c4s1, emptyPager.read_page 1)) ∧
    (∀ fuel, evictLoop fuel c4over = none) ∧
    (∀ fuel, PageCache.get_page fuel
      (PageCache.mark_dirty (PageCache.mark_dirty c4s1 1) 2) 2 = none) := by
  have hdiv : ∀ fuel, evictLoop fuel c4over = none :=
    evictLoop_none_of_all_dirty c4over (by decide) (by decide) (by decide)
  refine ⟨rfl, hdiv, ?_⟩
  intro fuel
  have hunfold : PageCache.get_page fuel
      (PageCache.mark_dirty (PageCache.mark_dirty c4s1 1) 2) 2
      = match evictLoop fuel c4over with
        | none => none
        | some s2 => some (s2, emptyPager.read_page 2) := rfl
  rw [hunfold, hdiv fuel]

/-- States of the C5 scenario (capacity 3, empty backing file):
after `get_page(1)`. -/
def c5s1 : PageCache := ⟨emptyPager, [(1, emptyPager.read_page 1)], [], [1], 3⟩

/-- ... after `mark_dirty(1)` and `get_page(2)`. -/
def c5s2 : PageCache :=
  ⟨emptyPager, [(1, emptyPager.read_page 1), (2, emptyPager.read_page 2)],
    [(1, true)], [1, 2], 3⟩

/-- ... after `get_page(3)`. -/
def c5s3 : PageCache :=
  ⟨emptyPager, [(1, emptyPager.read_page 1), (2, emptyPager.read_page 2),
    (3, emptyPager.read_page 3)], [(1, true)], [1, 2, 3], 3⟩

/-- ... after `get_page(4)`: page 2 (LRU clean) was evicted, dirty page 1
survived and was requeued behind 4. -/
def c5s4 : PageCache :=
  ⟨emptyPager, [(1, emptyPager.read_page 1), (3, emptyPager.read_page 3),
    (4, emptyPager.read_page 4)], [(1, true)], [3, 4, 1], 3⟩

/-- C5: with capacity 3, after `get_page(1)`, `mark_dirty(1)`,
`get_page(2..4)`, the dirty page 1 is still cached (the clean LRU page 2 was
evicted instead), and during the fourth fetch the cache briefly held 4
entries against a capacity of 3. -/
theorem page_cache_dirty_survives_scenario :
    PageCache.get_page 10 emptyCache3 1 = some (c5s1, emptyPager.read_page 1) ∧
    PageCache.get_page 10 (PageCache.mark_dirty c5s1 1) 2
      = some (c5s2, emptyPager.read_page 2) ∧
    PageCache.get_page 10 c5s2 3 = some (c5s3, emptyPager.read_page 3) ∧
    PageCache.get_page 10 c5s3 4 = some (c5s4, emptyPager.read_page 4) ∧
    (insertA c5s3.cache 4 (emptyPager.read_page 4)).length = 4 ∧
    c5s3.capacity = 3 ∧
    lookupA c5s4.cache 1 = some (emptyPager.read_page 1) ∧
    c5s4.cache.length = 3 := by
  exact ⟨rfl, rfl, rfl, rfl, rfl, rfl, rfl, rfl⟩

/-- Folding `get_page` over a list of page indices, keeping only the final
cache state; `none` propagates a non-terminating eviction. -/
def getPages (fuel : Nat) : PageCache → List Nat → Option PageCache
  | s, [] => some s
  | s, p :: ps =>
    match PageCache.get_page fuel s p with
    | none => none
    | some (s', _) => getPages fuel s' ps

theorem getPages_cons (fuel : Nat) (s : PageCache) (q : Nat) (qs : List Nat) :
    getPages fuel s (q :: qs)
      = match PageCache.get_page fuel s q with
        | none => none
        | some (s', _) => getPages fuel s' qs := rfl

/-- Miss branch of `get_page` at an explicit cache state. -/
theorem get_page_miss_mk (fuel : Nat) (P : Pager) (cache : List (Nat × List Nat))
    (dirty : List (Nat × Bool)) (lru : List Nat) (N q : Nat)
    (h : lookupA cache q = none) :
    PageCache.get_page fuel ⟨P, cache, dirty, lru, N⟩ q =
      match evictLoop fuel ⟨P, insertA cache q (P.read_page q), dirty, lru ++ [q], N⟩ with
      | none => none
      | some s2 => some (s2, P.read_page q) := by
  unfold PageCache.get_page
  rw [h]

/-- `evict_if_necessary` at an explicit state within capacity. -/
theorem evictLoop_le_mk (fuel : Nat) (P : Pager) (cache : List (Nat × List Nat))
    (dirty : List (Nat × Bool)) (lru : List Nat) (N : Nat) (h : cache.length ≤ N) :
    evictLoop fuel ⟨P, cache, dirty, lru, N⟩ = some ⟨P, cache, dirty, lru, N⟩ :=
  evictLoop_of_le fuel _ h

/-- One `while` iteration at an explicit over-capacity state. -/
theorem evictLoop_succ_mk (f : Nat) (P : Pager) (cache : List (Nat × List Nat))
    (dirty : List (Nat × Bool)) (v : Nat) (rest : List Nat) (N : Nat)
    (hcap : N < cache.length) :
    evictLoop (f + 1) ⟨P, cache, dirty, v :: rest, N⟩ =
      if (lookupA dirty v).getD false then
        evictLoop f ⟨P, cache, dirty, rest ++ [v], N⟩
      else
        evictLoop f ⟨P, removeA cache v, removeA dirty v, rest, N⟩ := by
  conv_lhs => rw [evictLoop]
  rw [if_pos (show (⟨P, cache, dirty, v :: rest, N⟩ : PageCache).capacity
    < (⟨P, cache, dirty, v :: rest, N⟩ : PageCache).cache.length from hcap)]
  rfl

/-- Fetching distinct pages into a cache already holding `done` (in LRU
order, all clean): every fetch is a miss, nothing is evicted until the
count first exceeds `N`, and at that point exactly the least-recently-used
page is dropped. -/
theorem getPages_distinct (P : Pager) (N fuel : Nat) :
    ∀ (qs done : List Nat), (done ++ qs).Nodup → (done ++ qs).length = N + 1 →
      done.length ≤ N → qs ≠ [] → 1 ≤ fuel →
      getPages fuel ⟨P, done.map (fun i => (i, P.read_page i)), [], done, N⟩ qs
        = some ⟨P, (done ++ qs).tail.map (fun i => (i, P.read_page i)), [],
            (done ++ qs).tail, N⟩ := by
  intro qs
  induction qs with
  | nil =>
    intro done _ _ _ hq _
    exact absurd rfl hq
  | cons q qs' ih =>
    intro done hnd hlen hdle _ hf
    have hqnotin : q ∉ done := by
      intro hq
      exact (List.nodup_append.mp hnd).2.2 hq (List.mem_cons_self q qs')
    have hmiss : lookupA (done.map fun i => (i, P.read_page i)) q = none :=
      lookupA_map_none done _ q hqnotin
    have hins : insertA (done.map fun i => (i, P.read_page i)) q (P.read_page q)
        = (done ++ [q]).map fun i => (i, P.read_page i) := by
      rw [insertA_of_lookupA_none _ _ _ hmiss]
      simp
    rw [getPages_cons]
    rw [get_page_miss_mk fuel P _ _ _ N q hmiss]
    rw [hins]
    rcases hqs' : qs' with _ | ⟨q2, qs2⟩
    · -- the (N+1)-st distinct fetch: eviction removes the LRU head
      subst hqs'
      have hdlen : done.length = N := by
        simp only [List.length_append, List.length_cons, List.length_nil] at hlen
        omega
      rcases fuel with _ | f
      · omega
      have hcap : N < ((done ++ [q]).map (fun i => (i, P.read_page i))).length := by
        simp only [List.length_map, List.length_append, List.length_singleton]
        omega
      rcases hdone : done with _ | ⟨d, ds⟩
      · -- capacity 0: the just-inserted page itself is the clean victim
        subst hdone
        simp only [List.nil_append] at hcap ⊢
        rw [evictLoop_succ_mk f P _ _ q [] N hcap]
        rw [if_neg (by simp [lookupA])]
        rw [show removeA (([q] : List Nat).map fun i => (i, P.read_page i)) q = []
          from by simp [removeA]]
        rw [show removeA ([] : List (Nat × Bool)) q = [] from rfl]
        rw [evictLoop_le_mk f P [] [] [] N (by simp)]
        rfl
      · subst hdone
        simp only [List.cons_append] at hcap ⊢
        rw [evictLoop_succ_mk f P _ _ d (ds ++ [q]) N (by
          simpa using hcap)]
        rw [if_neg (by simp [lookupA])]
        rw [show removeA ((d :: (ds ++ [q])).map fun i => (i, P.read_page i)) d
            = ((ds ++ [q]).map fun i => (i, P.read_page i)) from by simp [removeA]]
        rw [show removeA ([] : List (Nat × Bool)) d = [] from rfl]
        rw [evictLoop_le_mk f P _ [] _ N (by
          simp only [List.length_map, List.length_append, List.length_singleton]
          simp only [List.length_cons] at hdlen
          omega)]
        rfl
    · -- not the last fetch yet: no eviction, recurse
      subst hqs'
      rw [evictLoop_le_mk fuel P _ [] _ N (by
        simp only [List.length_map, List.length_append, List.length_singleton]
        simp only [List.length_append, List.length_cons] at hlen
        omega)]
      show getPages fuel ⟨P, (done ++ [q]).map (fun i => (i, P.read_page i)), [],
        done ++ [q], N⟩ (q2 :: qs2) = _
      rw [ih (done ++ [q])
        (by simpa using hnd)
        (by simpa using hlen)
        (by
          simp only [List.length_append, List.length_cons] at hlen
          simp only [List.length_append, List.length_singleton]
          omega)
        (by simp) hf]
      simp [List.append_assoc]

/-- C6: with capacity `N`, fetching `N + 1` distinct pages (no `mark_dirty`
in between) evicts exactly the least-recently-used (first-fetched) page and
no other: afterwards the cache holds exactly the last `N` pages in fetch
order, the first page is absent and each of the others is present with its
read-through buffer. -/
theorem page_cache_lru_evicts_first (P : Pager) (N fuel : Nat) (ps : List Nat)
    (hnd : ps.Nodup) (hlen : ps.length = N + 1) (hf : 1 ≤ fuel) :
    getPages fuel ⟨P, [], [], [], N⟩ ps
      = some ⟨P, ps.tail.map (fun i => (i, P.read_page i)), [], ps.tail, N⟩ ∧
    (∀ hne : ps ≠ [],
      lookupA (ps.tail.map (fun i => (i, P.read_page i))) (ps.head hne) = none) ∧
    (∀ q ∈ ps.tail,
      lookupA (ps.tail.map (fun i => (i, P.read_page i))) q = some (P.read_page q)) := by
  refine ⟨?_, ?_, ?_⟩
  · have h := getPages_distinct P N fuel ps [] (by simpa using hnd) (by simpa using hlen)
      (by simp) (by rintro rfl; simp at hlen) hf
    simpa using h
  · intro hne
    rcases ps with _ | ⟨h0, t⟩
    · exact absurd rfl hne
    · have : h0 ∉ t := (List.nodup_cons.mp hnd).1
      exact lookupA_map_none t _ h0 this
  · intro q hq
    exact lookupA_map_self ps.tail _ q hq

/-- Witness for C6 at capacity 3, pages 1,2,3,4 over an empty file. -/
theorem page_cache_lru_evicts_first_witness :
    getPages 1 ⟨emptyPager, [], [], [], 3⟩ [1, 2, 3, 4]
      = some ⟨emptyPager, [2, 3, 4].map (fun i => (i, emptyPager.read_page i)), [],
          [2, 3, 4], 3⟩ ∧
    lookupA ([2, 3, 4].map (fun i => (i, emptyPager.read_page i))) 1 = none := by
  have h := page_cache_lru_evicts_first emptyPager 3 1 [1, 2, 3, 4] (by decide)
    (by decide) (by decide)
  exact ⟨h.1, h.2.1 (by decide)⟩

/-! ### Pager read/write round trips -/

/-- Writing a full page and reading it back returns exactly those bytes. -/
theorem read_page_write_page_self (p : Pager) (i : Nat) (d : List Nat)
    (hd : d.length = PAGE_SIZE) :
    (p.write_page i d).read_page i = d := by
  simp only [Pager.write_page, Pager.read_page]
  have h1 : ((p.file ++ List.replicate (i * PAGE_SIZE - p.file.length) 0).take
      (i * PAGE_SIZE)).length = i * PAGE_SIZE := by
    simp only [List.length_take, List.length_append, List.length_replicate]
    omega
  rw [List.append_assoc, List.drop_left' h1, List.take_left' hd, hd]
  simp

/-- Reading any page ignores trailing zeros appended to the file (they are
indistinguishable from the zero padding of a short read). -/
theorem read_page_append_zeros (file : List Nat) (k i : Nat) :
    Pager.read_page ⟨file ++ List.replicate k 0⟩ i = Pager.read_page ⟨file⟩ i := by
  simp only [Pager.read_page]
  rw [List.drop_append_eq_append_drop, List.drop_replicate,
    List.take_append_eq_append_take, List.take_replicate]
  have h1 : ((file.drop (i * PAGE_SIZE)).take PAGE_SIZE).length
      = min PAGE_SIZE (file.length - i * PAGE_SIZE) := by
    simp [List.length_take, List.length_drop]
  rw [List.append_assoc, ← List.replicate_add]
  congr 1
  congr 1
  simp only [List.length_take, List.length_drop, List.length_append,
    List.length_replicate]
  omega

/-- Writing page `j` leaves the read of any other page `i` unchanged: the
written byte range `[j*PAGE_SIZE, (j+1)*PAGE_SIZE)` is disjoint from the
read range, and zero-extension of the file is invisible to reads. -/
theorem read_page_write_page_ne (p : Pager) (i j : Nat) (d : List Nat)
    (hd : d.length = PAGE_SIZE) (hij : i ≠ j) :
    (p.write_page j d).read_page i = p.read_page i := by
  rcases p with ⟨file⟩
  simp only [Pager.write_page]
  rw [← read_page_append_zeros file (j * PAGE_SIZE - file.length) i]
  simp only [Pager.read_page]
  have hkey : List.take PAGE_SIZE (List.drop (i * PAGE_SIZE)
      (List.take (j * PAGE_SIZE) (file ++ List.replicate (j * PAGE_SIZE - file.length) 0)
        ++ d
        ++ List.drop (j * PAGE_SIZE + PAGE_SIZE)
          (file ++ List.replicate (j * PAGE_SIZE - file.length) 0)))
      = List.take PAGE_SIZE (List.drop (i * PAGE_SIZE)
        (file ++ List.replicate (j * PAGE_SIZE - file.length) 0)) := by
    have hflen : j * PAGE_SIZE
        ≤ (file ++ List.replicate (j * PAGE_SIZE - file.length) 0).length := by
      simp only [List.length_append, List.length_replicate]
      omega
    have htl : ((file ++ List.replicate (j * PAGE_SIZE - file.length) 0).take
        (j * PAGE_SIZE)).length = j * PAGE_SIZE := by
      simp only [List.length_take]
      omega
    rcases Nat.lt_or_ge i j with hlt | hge
    · have hsep : i * PAGE_SIZE + PAGE_SIZE ≤ j * PAGE_SIZE := by
        have h1 : (i + 1) * PAGE_SIZE ≤ j * PAGE_SIZE :=
          Nat.mul_le_mul_right _ hlt
        calc i * PAGE_SIZE + PAGE_SIZE = (i + 1) * PAGE_SIZE := by ring
          _ ≤ j * PAGE_SIZE := h1
      rw [List.drop_append_eq_append_drop, List.drop_append_eq_append_drop]
      rw [List.length_append, htl, hd]
      rw [show i * PAGE_SIZE - j * PAGE_SIZE = 0 from by omega]
      rw [show i * PAGE_SIZE - (j * PAGE_SIZE + PAGE_SIZE) = 0 from by omega]
      rw [List.drop_zero, List.drop_zero]
      have hdlen : ((List.take (j * PAGE_SIZE)
          (file ++ List.replicate (j * PAGE_SIZE - file.length) 0)).drop
          (i * PAGE_SIZE)).length = j * PAGE_SIZE - i * PAGE_SIZE := by
        simp only [List.length_drop, htl]
      rw [List.take_append_eq_append_take]
      have hz3 : PAGE_SIZE - ((List.take (j * PAGE_SIZE)
          (file ++ List.replicate (j * PAGE_SIZE - file.length) 0)).drop
            (i * PAGE_SIZE) ++ d).length = 0 := by
        simp only [List.length_append, hdlen, hd]
        omega
      rw [hz3, List.take_zero, List.append_nil]
      rw [List.take_append_eq_append_take]
      have hz4 : PAGE_SIZE - ((List.take (j * PAGE_SIZE)
          (file ++ List.replicate (j * PAGE_SIZE - file.length) 0)).drop
            (i * PAGE_SIZE)).length = 0 := by
        rw [hdlen]
        omega
      rw [hz4, List.take_zero, List.append_nil]
      rw [List.drop_take, List.take_take]
      rw [show min PAGE_SIZE (j * PAGE_SIZE - i * PAGE_SIZE) = PAGE_SIZE from by omega]
    · have hlt2 : j < i := lt_of_le_of_ne hge (Ne.symm hij)
      have hsep : j * PAGE_SIZE + PAGE_SIZE ≤ i * PAGE_SIZE := by
        have h1 : (j + 1) * PAGE_SIZE ≤ i * PAGE_SIZE :=
          Nat.mul_le_mul_right _ hlt2
        calc j * PAGE_SIZE + PAGE_SIZE = (j + 1) * PAGE_SIZE := by ring
          _ ≤ i * PAGE_SIZE := h1
      rw [List.drop_append_eq_append_drop]
      rw [List.drop_eq_nil_of_le (by
        simp only [List.length_append, htl, hd]
        omega)]
      rw [List.nil_append, List.length_append, htl, hd]
      rw [List.drop_drop]
      rw [show j * PAGE_SIZE + PAGE_SIZE + (i * PAGE_SIZE - (j * PAGE_SIZE + PAGE_SIZE))
          = i * PAGE_SIZE from by omega]
  rw [hkey]

/-! ### Flush-loop facts -/

theorem mem_of_lookupA {α : Type} (l : List (Nat × α)) (k : Nat) (v : α)
    (h : lookupA l k = some v) : (k, v) ∈ l := by
  induction l with
  | nil => simp [lookupA] at h
  | cons p rest ih =>
    obtain ⟨a, b⟩ := p
    by_cases ha : a = k
    · subst ha
      rw [lookupA, if_pos rfl] at h
      injection h with h
      subst h
      exact List.mem_cons_self _ _
    · rw [lookupA, if_neg ha] at h
      exact List.mem_cons_of_mem _ (ih h)

theorem lookupA_eq_none_of_not_mem_keys {α : Type} (l : List (Nat × α)) (k : Nat)
    (h : k ∉ l.map Prod.fst) : lookupA l k = none := by
  induction l with
  | nil => rfl
  | cons p rest ih =>
    obtain ⟨a, b⟩ := p
    simp only [List.map_cons, List.mem_cons, not_or] at h
    simp [lookupA, Ne.symm h.1, ih h.2]

theorem lookupA_removeA_self {α : Type} (l : List (Nat × α)) (k : Nat)
    (hnd : (l.map Prod.fst).Nodup) : lookupA (removeA l k) k = none := by
  induction l with
  | nil => rfl
  | cons p rest ih =>
    obtain ⟨a, b⟩ := p
    simp only [List.map_cons, List.nodup_cons] at hnd
    by_cases ha : a = k
    · subst ha
      simp only [removeA, if_pos rfl]
      exact lookupA_eq_none_of_not_mem_keys rest a hnd.1
    · simp [removeA, lookupA, ha, ih hnd.2]

theorem removeA_keys_sublist {α : Type} (l : List (Nat × α)) (k : Nat) :
    ((removeA l k).map Prod.fst).Sublist (l.map Prod.fst) := by
  induction l with
  | nil => simp [removeA]
  | cons p rest ih =>
    obtain ⟨a, b⟩ := p
    by_cases ha : a = k
    · simp only [removeA, if_pos ha, List.map_cons]
      exact List.sublist_cons_of_sublist _ (List.Sublist.refl _)
    · simp only [removeA, if_neg ha, List.map_cons]
      exact List.Sublist.cons₂ _ ih

theorem lookupA_removeA_of_none {α : Type} (l : List (Nat × α)) (k p : Nat)
    (h : lookupA l p = none) : lookupA (removeA l k) p = none := by
  induction l with
  | nil => rfl
  | cons q rest ih
  =>
    obtain ⟨a, b⟩ := q
    by_cases hap : a = p
    · subst hap
      simp [lookupA] at h
    · simp only [lookupA, if_neg hap] at h
      by_cases hak : a = k
      · simp [removeA, hak, h]
      · simp [removeA, hak, lookupA, hap, ih h]

/-- One step of the `for` loop, by branch. -/
theorem flushLoop_cons_notcached (err : Nat → Bool) (j : Nat) (rest : List Nat)
    (s : PageCache) (h : lookupA s.cache j = none) :
    flushLoop err (j :: rest) s = flushLoop err rest s := by
  conv_lhs => rw [flushLoop]
  rw [h]

theorem flushLoop_cons_notdirty (err : Nat → Bool) (j : Nat) (rest : List Nat)
    (s : PageCache) (page : List Nat) (hc : lookupA s.cache j = some page)
    (hd : lookupA s.dirty_flag j = none) :
    flushLoop err (j :: rest) s = flushLoop err rest s := by
  conv_lhs => rw [flushLoop]
  rw [hd, hc]

theorem flushLoop_cons_err (err : Nat → Bool) (j : Nat) (rest : List Nat)
    (s : PageCache) (page : List Nat) (w : Bool) (hc : lookupA s.cache j = some page)
    (hd : lookupA s.dirty_flag j = some w) (he : err j = true) :
    flushLoop err (j :: rest) s = (s, false) := by
  conv_lhs => rw [flushLoop]
  rw [he, hd, hc]
  rfl

theorem flushLoop_cons_write (err : Nat → Bool) (j : Nat) (rest : List Nat)
    (s : PageCache) (page : List Nat) (w : Bool) (hc : lookupA s.cache j = some page)
    (hd : lookupA s.dirty_flag j = some w) (he : err j = false) :
    flushLoop err (j :: rest) s = flushLoop err rest
      { s with pager := s.pager.write_page j page,
               dirty_flag := removeA s.dirty_flag j } := by
  conv_lhs => rw [flushLoop]
  rw [he, hd, hc]
  rfl

/-- `flush` only touches the pager and the dirty flags: the cache contents,
the LRU order and the capacity are untouched whatever the I/O outcome. -/
theorem flushLoop_keeps (err : Nat → Bool) (ids : List Nat) :
    ∀ s : PageCache,
      (flushLoop err ids s).1.cache = s.cache ∧
      (flushLoop err ids s).1.lru = s.lru ∧
      (flushLoop err ids s).1.capacity = s.capacity := by
  induction ids with
  | nil => intro s; exact ⟨rfl, rfl, rfl⟩
  | cons j rest ih =>
    intro s
    rcases hc : lookupA s.cache j with _ | page
    · rw [flushLoop_cons_notcached err j rest s hc]
      exact ih s
    · rcases hd : lookupA s.dirty_flag j with _ | w
      · rw [flushLoop_cons_notdirty err j rest s page hc hd]
        exact ih s
      · cases he : err j with
        | true =>
          rw [flushLoop_cons_err err j rest s page w hc hd he]
          exact ⟨rfl, rfl, rfl⟩
        | false =>
          rw [flushLoop_cons_write err j rest s page w hc hd he]
          exact ih _

/-- Pages whose id is not driven through the loop are never written. -/
theorem flushLoop_pager_untouched (err : Nat → Bool) (ids : List Nat) :
    ∀ (s : PageCache) (i : Nat),
      (∀ pr ∈ s.cache, (Prod.snd pr).length = PAGE_SIZE) → i ∉ ids →
      Pager.read_page (flushLoop err ids s).1.pager i = Pager.read_page s.pager i := by
  induction ids with
  | nil => intro s i _ _; rfl
  | cons j rest ih =>
    intro s i hbuf hni
    have hji : j ≠ i := fun h => hni (h ▸ List.mem_cons_self j rest)
    have hirest : i ∉ rest := fun h => hni (List.mem_cons_of_mem j h)
    rcases hc : lookupA s.cache j with _ | page
    · rw [flushLoop_cons_notcached err j rest s hc]
      exact ih s i hbuf hirest
    · rcases hd : lookupA s.dirty_flag j with _ | w
      · rw [flushLoop_cons_notdirty err j rest s page hc hd]
        exact ih s i hbuf hirest
      · cases he : err j with
        | true =>
          rw [flushLoop_cons_err err j rest s page w hc hd he]
        | false =>
          rw [flushLoop_cons_write err j rest s page w hc hd he]
          rw [ih { s with pager := s.pager.write_page j page,
                          dirty_flag := removeA s.dirty_flag j } i hbuf hirest]
          exact read_page_write_page_ne s.pager i j page
            (hbuf (j, page) (mem_of_lookupA _ _ _ hc)) (Ne.symm hji)

/-- When no write fails the loop reports success and clears every flag. -/
theorem flushLoop_noerr (ids : List Nat) :
    ∀ s : PageCache,
      (flushLoop (fun _ => false) ids s).2 = true ∧
      (flushLoop (fun _ => false) ids s).1.dirty_flag = [] := by
  induction ids with
  | nil => intro s; exact ⟨rfl, rfl⟩
  | cons j rest ih =>
    intro s
    rcases hc : lookupA s.cache j with _ | page
    · rw [flushLoop_cons_notcached _ j rest s hc]
      exact ih s
    · rcases hd : lookupA s.dirty_flag j with _ | w
      · rw [flushLoop_cons_notdirty _ j rest s page hc hd]
        exact ih s
      · rw [flushLoop_cons_write _ j rest s page w hc hd rfl]
        exact ih _

/-- A page that is not flagged dirty can never become dirty during flush. -/
theorem flushLoop_dirty_none_preserved (err : Nat → Bool) (ids : List Nat) :
    ∀ (s : PageCache) (p : Nat), lookupA s.dirty_flag p = none →
      lookupA (flushLoop err ids s).1.dirty_flag p = none := by
  induction ids with
  | nil => intro s p _; rfl
  | cons j rest ih =>
    intro s p hp
    rcases hc : lookupA s.cache j with _ | page
    · rw [flushLoop_cons_notcached err j rest s hc]
      exact ih s p hp
    · rcases hd : lookupA s.dirty_flag j with _ | w
      · rw [flushLoop_cons_notdirty err j rest s page hc hd]
        exact ih s p hp
      · cases he : err j with
        | true =>
          rw [flushLoop_cons_err err j rest s page w hc hd he]
          exact hp
        | false =>
          rw [flushLoop_cons_write err j rest s page w hc hd he]
          exact ih _ p (lookupA_removeA_of_none _ _ _ hp)

/-- Success path: every dirty cached page whose id appears in the walked
list ends up readable from the pager with exactly its cached buffer. -/
theorem flushLoop_writes (ids : List Nat) :
    ∀ (s : PageCache) (i : Nat) (b : List Nat), ids.Nodup →
      (∀ pr ∈ s.cache, (Prod.snd pr).length = PAGE_SIZE) →
      i ∈ ids → lookupA s.cache i = some b →
      (lookupA s.dirty_flag i).isSome →
      Pager.read_page (flushLoop (fun _ => false) ids s).1.pager i = b := by
  induction ids with
  | nil => intro s i b _ _ hmem; exact absurd hmem (List.not_mem_nil i)
  | cons j rest ih =>
    intro s i b hnd hbuf hmem hci hdi
    have hnd' : rest.Nodup := (List.nodup_cons.mp hnd).2
    have hjrest : j ∉ rest := (List.nodup_cons.mp hnd).1
    rcases List.mem_cons.mp hmem with hij | hirest
    · subst hij
      obtain ⟨w, hd⟩ := Option.isSome_iff_exists.mp hdi
      rw [flushLoop_cons_write _ i rest s b w hci hd rfl]
      have hblen : b.length = PAGE_SIZE := hbuf (i, b) (mem_of_lookupA _ _ _ hci)
      rw [flushLoop_pager_untouched _ rest
        { s with pager := s.pager.write_page i b,
                 dirty_flag := removeA s.dirty_flag i } i hbuf hjrest]
      exact read_page_write_page_self s.pager i b hblen
    · have hji : j ≠ i := fun h => hjrest (h ▸ hirest)
      rcases hc : lookupA s.cache j with _ | page
      · rw [flushLoop_cons_notcached _ j rest s hc]
        exact ih s i b hnd' hbuf hirest hci hdi
      · rcases hd : lookupA s.dirty_flag j with _ | w
        · rw [flushLoop_cons_notdirty _ j rest s page hc hd]
          exact ih s i b hnd' hbuf hirest hci hdi
        · rw [flushLoop_cons_write _ j rest s page w hc hd rfl]
          refine ih { s with pager := s.pager.write_page j page,
                             dirty_flag := removeA s.dirty_flag j }
            i b hnd' hbuf hirest hci ?_
          rw [show lookupA (removeA s.dirty_flag j) i = lookupA s.dirty_flag i from
            lookupA_removeA_ne s.dirty_flag j i hji]
          exact hdi

/-- Whatever the I/O outcome, a page that went in dirty is afterwards
either still flagged dirty or durably holds its cached buffer. -/
theorem flushLoop_dirty_or_written (err : Nat → Bool) (ids : List Nat) :
    ∀ (s : PageCache) (i : Nat) (b : List Nat), ids.Nodup →
      (∀ pr ∈ s.cache, (Prod.snd pr).length = PAGE_SIZE) →
      i ∈ ids → lookupA s.cache i = some b →
      (lookupA s.dirty_flag i).isSome →
      (lookupA (flushLoop err ids s).1.dirty_flag i).isSome ∨
        Pager.read_page (flushLoop err ids s).1.pager i = b := by
  induction ids with
  | nil => intro s i b _ _ hmem; exact absurd hmem (List.not_mem_nil i)
  | cons j rest ih =>
    intro s i b hnd hbuf hmem hci hdi
    have hnd' : rest.Nodup := (List.nodup_cons.mp hnd).2
    have hjrest : j ∉ rest := (List.nodup_cons.mp hnd).1
    rcases List.mem_cons.mp hmem with hij | hirest
    · subst hij
      obtain ⟨w, hd⟩ := Option.isSome_iff_exists.mp hdi
      cases he : err i with
      | true =>
        rw [flushLoop_cons_err err i rest s b w hci hd he]
        exact Or.inl hdi
      | false =>
        rw [flushLoop_cons_write err i rest s b w hci hd he]
        refine Or.inr ?_
        have hblen : b.length = PAGE_SIZE := hbuf (i, b) (mem_of_lookupA _ _ _ hci)
        rw [flushLoop_pager_untouched err rest
          { s with pager := s.pager.write_page i b,
                   dirty_flag := removeA s.dirty_flag i } i hbuf hjrest]
        exact read_page_write_page_self s.pager i b hblen
    · have hji : j ≠ i := fun h => hjrest (h ▸ hirest)
      rcases hc : lookupA s.cache j with _ | page
      · rw [flushLoop_cons_notcached err j rest s hc]
        exact ih s i b hnd' hbuf hirest hci hdi
      · rcases hd : lookupA s.dirty_flag j with _ | w
        · rw [flushLoop_cons_notdirty err j rest s page hc hd]
          exact ih s i b hnd' hbuf hirest hci hdi
        · cases he : err j with
          | true =>
            rw [flushLoop_cons_err err j rest s page w hc hd he]
            exact Or.inl hdi
          | false =>
            rw [flushLoop_cons_write err j rest s page w hc hd he]
            refine ih { s with pager := s.pager.write_page j page,
                               dirty_flag := removeA s.dirty_flag j }
              i b hnd' hbuf hirest hci ?_
            rw [show lookupA (removeA s.dirty_flag j) i = lookupA s.dirty_flag i from
              lookupA_removeA_ne s.dirty_flag j i hji]
            exact hdi

/-- Failure path: the loop walks the LRU order, so when the first failing
page `f` is reached, every dirty page before `f` has already been written
and unflagged, and the loop returns `false` immediately. -/
theorem flushLoop_prefix_stop (err : Nat → Bool) (post : List Nat) (f : Nat)
    (hf : err f = true) :
    ∀ (pre : List Nat) (s : PageCache),
      (pre ++ f :: post).Nodup →
      (∀ pr ∈ s.cache, (Prod.snd pr).length = PAGE_SIZE) →
      (s.dirty_flag.map Prod.fst).Nodup →
      (∀ p ∈ pre, err p = false) →
      (lookupA s.cache f).isSome → (lookupA s.dirty_flag f).isSome →
      (flushLoop err (pre ++ f :: post) s).2 = false ∧
      (∀ (p : Nat) (b : List Nat), p ∈ pre → lookupA s.cache p = some b →
        (lookupA s.dirty_flag p).isSome →
        Pager.read_page (flushLoop err (pre ++ f :: post) s).1.pager p = b ∧
        lookupA (flushLoop err (pre ++ f :: post) s).1.dirty_flag p = none) ∧
      ∀ q : Nat, q ∉ pre →
        lookupA (flushLoop err (pre ++ f :: post) s).1.dirty_flag q =
          lookupA s.dirty_flag q := by
  intro pre
  induction pre with
  | nil =>
    intro s hnd hbuf hdnd hpre hcf hdf
    obtain ⟨pf, hcf'⟩ := Option.isSome_iff_exists.mp hcf
    obtain ⟨w, hdf'⟩ := Option.isSome_iff_exists.mp hdf
    simp only [List.nil_append]
    rw [flushLoop_cons_err err f post s pf w hcf' hdf' hf]
    exact ⟨rfl, fun p b hp _ _ => absurd hp (List.not_mem_nil p),
      fun q _ => rfl⟩
  | cons j pre2 ih =>
    intro s hnd hbuf hdnd hpre hcf hdf
    simp only [List.cons_append] at hnd ⊢
    have hej : err j = false := hpre j (List.mem_cons_self j pre2)
    have hjrest : j ∉ pre2 ++ f :: post := (List.nodup_cons.mp hnd).1
    have hnd' : (pre2 ++ f :: post).Nodup := (List.nodup_cons.mp hnd).2
    have hjf : j ≠ f := fun h => hjrest (by
      rw [h]
      exact List.mem_append_right pre2 (List.mem_cons_self f post))
    have hjpre2 : j ∉ pre2 := fun h => hjrest (List.mem_append_left _ h)
    have hpre' : ∀ p ∈ pre2, err p = false :=
      fun p hp => hpre p (List.mem_cons_of_mem j hp)
    rcases hc : lookupA s.cache j with _ | page
    · rw [flushLoop_cons_notcached err j (pre2 ++ f :: post) s hc]
      obtain ⟨h1, h2, h3⟩ := ih s hnd' hbuf hdnd hpre' hcf hdf
      refine ⟨h1, ?_, ?_⟩
      · intro p b hp hcp hdp
        rcases List.mem_cons.mp hp with hpj | hp2
        · rw [hpj, hc] at hcp
          exact absurd hcp (by simp)
        · exact h2 p b hp2 hcp hdp
      · intro q hq
        exact h3 q (fun h => hq (List.mem_cons_of_mem j h))
    · rcases hd : lookupA s.dirty_flag j with _ | w
      · rw [flushLoop_cons_notdirty err j (pre2 ++ f :: post) s page hc hd]
        obtain ⟨h1, h2, h3⟩ := ih s hnd' hbuf hdnd hpre' hcf hdf
        refine ⟨h1, ?_, ?_⟩
        · intro p b hp hcp hdp
          rcases List.mem_cons.mp hp with hpj | hp2
          · rw [hpj, hd] at hdp
            exact absurd hdp (by simp)
          · exact h2 p b hp2 hcp hdp
        · intro q hq
          exact h3 q (fun h => hq (List.mem_cons_of_mem j h))
      · rw [flushLoop_cons_write err j (pre2 ++ f :: post) s page w hc hd hej]
        have hdnd' : ((removeA s.dirty_flag j).map Prod.fst).Nodup :=
          List.Nodup.sublist (removeA_keys_sublist s.dirty_flag j) hdnd
        have hdf' : (lookupA (removeA s.dirty_flag j) f).isSome := by
          rw [lookupA_removeA_ne s.dirty_flag j f hjf]
          exact hdf
        obtain ⟨h1, h2, h3⟩ := ih { s with pager := s.pager.write_page j page,
                                           dirty_flag := removeA s.dirty_flag j }
          hnd' hbuf hdnd' hpre' hcf hdf'
        refine ⟨h1, ?_, ?_⟩
        · intro p b hp hcp hdp
          rcases List.mem_cons.mp hp with hpj | hp2
          · subst hpj
            have hb : page = b := by
              rw [hc] at hcp
              injection hcp
            subst hb
            constructor
            · rw [flushLoop_pager_untouched err (pre2 ++ f :: post)
                { s with pager := s.pager.write_page p page,
                         dirty_flag := removeA s.dirty_flag p } p hbuf hjrest]
              exact read_page_write_page_self s.pager p page
                (hbuf (p, page) (mem_of_lookupA _ _ _ hc))
            · exact flushLoop_dirty_none_preserved err (pre2 ++ f :: post)
                { s with pager := s.pager.write_page p page,
                         dirty_flag := removeA s.dirty_flag p } p
                (lookupA_removeA_self s.dirty_flag p hdnd)
          · refine h2 p b hp2 hcp ?_
            rw [lookupA_removeA_ne s.dirty_flag j p
              (fun h => hjpre2 (h ▸ hp2))]
            exact hdp
        · intro q hq
          have hqj : j ≠ q := fun h => hq (by rw [h]; exact List.mem_cons_self q pre2)
          have hq2 : q ∉ pre2 := fun h => hq (List.mem_cons_of_mem j h)
          rw [h3 q hq2]
          exact lookupA_removeA_ne s.dirty_flag j q hqj

/-- Concrete state used to witness the flush specification: one cached
page-sized buffer for page 1, flagged dirty, over an empty pager file. -/
def c7s : PageCache :=
  { pager := ⟨[]⟩
    cache := [(1, List.replicate PAGE_SIZE 7)]
    dirty_flag := [(1, true)]
    lru := [1]
    capacity := 3 }

/-- C7: `flush()` writes every dirty cached page's current buffer to the
`Pager` in LRU-to-MRU order and then clears all dirty flags.  Under any
write-error oracle the cache entries, LRU order and capacity are intact;
with no write failure flush succeeds, leaves no dirty flag, and every
previously dirty cached page's bytes are durably readable from the pager;
under any oracle a dirty cached page is afterwards either still flagged
dirty or durably written; and when the first failing page `f` is reached
in LRU order the loop propagates the failure, having already written and
unflagged every dirty page before `f`, while pages outside that prefix
keep their dirty flags. -/
theorem page_cache_flush_spec (err : Nat → Bool) (s : PageCache)
    (hnd : s.lru.Nodup)
    (hdnd : (s.dirty_flag.map Prod.fst).Nodup)
    (hbuf : ∀ pr ∈ s.cache, (Prod.snd pr).length = PAGE_SIZE) :
    ((PageCache.flush err s).1.cache = s.cache ∧
     (PageCache.flush err s).1.lru = s.lru ∧
     (PageCache.flush err s).1.capacity = s.capacity) ∧
    ((PageCache.flush (fun _ => false) s).2 = true ∧
     (PageCache.flush (fun _ => false) s).1.dirty_flag = []) ∧
    (∀ (i : Nat) (b : List Nat), i ∈ s.lru → lookupA s.cache i = some b →
      (lookupA s.dirty_flag i).isSome →
      Pager.read_page (PageCache.flush (fun _ => false) s).1.pager i = b) ∧
    (∀ (i : Nat) (b : List Nat), i ∈ s.lru → lookupA s.cache i = some b →
      (lookupA s.dirty_flag i).isSome →
      (lookupA (PageCache.flush err s).1.dirty_flag i).isSome ∨
        Pager.read_page (PageCache.flush err s).1.pager i = b) ∧
    (∀ (pre : List Nat) (f : Nat) (post : List Nat),
      s.lru = pre ++ f :: post →
      (∀ p ∈ pre, err p = false) → err f = true →
      (lookupA s.cache f).isSome → (lookupA s.dirty_flag f).isSome →
      (PageCache.flush err s).2 = false ∧
      (∀ (p : Nat) (b : List Nat), p ∈ pre → lookupA s.cache p = some b →
        (lookupA s.dirty_flag p).isSome →
        Pager.read_page (PageCache.flush err s).1.pager p = b ∧
        lookupA (PageCache.flush err s).1.dirty_flag p = none) ∧
      ∀ q : Nat, q ∉ pre →
        lookupA (PageCache.flush err s).1.dirty_flag q =
          lookupA s.dirty_flag q) := by
  refine ⟨flushLoop_keeps err s.lru s, flushLoop_noerr s.lru s, ?_, ?_, ?_⟩
  · intro i b hi hci hdi
    exact flushLoop_writes s.lru s i b hnd hbuf hi hci hdi
  · intro i b hi hci hdi
    exact flushLoop_dirty_or_written err s.lru s i b hnd hbuf hi hci hdi
  · intro pre f post hsplit hpre hef hcf hdf
    have hnd2 : (pre ++ f :: post).Nodup := hsplit ▸ hnd
    have h := flushLoop_prefix_stop err post f hef pre s hnd2 hbuf hdnd hpre hcf hdf
    unfold PageCache.flush
    rw [hsplit]
    exact h

/-- Witness for C7 at a concrete one-page state with no write failures. -/
theorem page_cache_flush_spec_witness :
    c7s.lru.Nodup ∧
    (c7s.dirty_flag.map Prod.fst).Nodup ∧
    (∀ pr ∈ c7s.cache, (Prod.snd pr).length = PAGE_SIZE) ∧
    (PageCache.flush (fun _ => false) c7s).1.cache = c7s.cache ∧
    (PageCache.flush (fun _ => false) c7s).2 = true ∧
    (PageCache.flush (fun _ => false) c7s).1.dirty_flag = [] ∧
    Pager.read_page (PageCache.flush (fun _ => false) c7s).1.pager 1 =
      List.replicate PAGE_SIZE 7 := by
  have hnd : c7s.lru.Nodup := by decide
  have hdnd : (c7s.dirty_flag.map Prod.fst).Nodup := by decide
  have hbuf : ∀ pr ∈ c7s.cache, (Prod.snd pr).length = PAGE_SIZE := by
    intro pr hpr
    simp only [c7s, List.mem_singleton] at hpr
    subst hpr
    simp
  have h := page_cache_flush_spec (fun _ => false) c7s hnd hdnd hbuf
  refine ⟨hnd, hdnd, hbuf, h.1.1, h.2.1.1, h.2.1.2, ?_⟩
  exact h.2.2.1 1 (List.replicate PAGE_SIZE 7) (by simp [c7s]) rfl rfl
